import Mathlib

/-
Verification development for the RustDDS Reliable Stateful Reader core.

The Rust sources embedded here are `src/rtps/reader.rs` (the Reader state
machine: DATA / HEARTBEAT / GAP handling, ACKNACK and NACKFRAG generation)
and `src/structure/dds_cache.rs` (TopicCache / DDSHistoryCache).
Types that those files use but whose defining modules are not part of the
source tree (GUID / EntityId, RtpsWriterProxy, FragmentAssembler,
SequenceNumberSet, the QoS policy structures) are modelled from the
specification document, as indicated on each definition.

Conventions of the embedding:
* `SequenceNumber` (Rust `i64`) is `Int`; counters (`i32`) are `Int`;
  `Timestamp` (opaque monotonic instant) is `Nat`; none of the operations
  modelled can overflow at the values the protocol uses.
* Rust `BTreeMap` is an association list; the ordered-map operations that
  matter (lookup, in-place value update, insert-or-replace keyed by an
  ordered key) are given as functions, with the key-sortedness invariant
  carried as a hypothesis by theorems that need it.
* Channel sends, logging and UDP I/O are not state; the submessages a
  handler would transmit are returned as an explicit list, in the order
  the corresponding RTPS messages are handed to the UDP sender.
-/

namespace RustDDS

/-- Association-list lookup (first matching key wins), standing in for
`BTreeMap::get`. -/
def alookup {α β : Type} [DecidableEq α] (k : α) : List (α × β) → Option β
  | [] => none
  | (k1, v) :: rest => if k1 = k then some v else alookup k rest

/-- In-place value update of the first entry with the given key, standing in
for the take-out / mutate / put-back pattern on a `BTreeMap` entry. -/
def aupdate {α β : Type} [DecidableEq α] (k : α) (f : β → β) :
    List (α × β) → List (α × β)
  | [] => []
  | (k1, v) :: rest =>
    if k1 = k then (k1, f v) :: rest else (k1, v) :: aupdate k f rest

/-- Insert-or-replace for an association list, standing in for
`BTreeMap::insert` where only the resulting mapping matters. -/
def aupsert {α β : Type} [DecidableEq α] (k : α) (v : β) :
    List (α × β) → List (α × β)
  | [] => [(k, v)]
  | (k1, w) :: rest =>
    if k1 = k then (k1, v) :: rest else (k1, w) :: aupsert k v rest

/-- The list of integers `lo, lo+1, ..., hi-1` (empty when `hi ≤ lo`). -/
def intRange (lo hi : Int) : List Int :=
  (List.range (hi - lo).toNat).map (fun i : Nat => lo + (i : Int))

/-- Modelled from the spec: `EntityId` (4 bytes: a 3-byte key and a kind
octet); `guid.rs` is not among the source files. Built-in entity kinds have
the two top bits of the kind octet set, user-defined ones do not. -/
structure EntityId where
  key : Nat
  kind : Nat
deriving DecidableEq, Repr

/-- Modelled from the spec: `EntityKind::is_user_defined` for the kind octet
of an entity id. -/
def EntityId.isUserDefined (e : EntityId) : Bool := e.kind < 0xC0

/-- Modelled from the spec: the well-known entity id of the SPDP built-in
participant reader (the entity granted the duplicate-DATA exception in
`Reader::process_received_data`). -/
def EntityId.SPDP_BUILTIN_PARTICIPANT_READER : EntityId := ⟨0x000100, 0xC7⟩

/-- Modelled from the spec: `GUID` = (12-byte guid prefix, `EntityId`).
The prefix is abstracted to a `Nat`. -/
structure GUID where
  pfx : Nat
  entityId : EntityId
deriving DecidableEq, Repr

/-- Modelled from the spec: change kind of a cache change. -/
inductive ChangeKind where
  | ALIVE
  | NOT_ALIVE_DISPOSED
  | NOT_ALIVE_UNREGISTERED
  | NOT_ALIVE_DISPOSED_UNREGISTERED
deriving DecidableEq, Repr

/-- Modelled from the spec: a serialized payload is a black-box byte
sequence (serialization adapters are out of scope), so
`SerializedPayload::from_bytes` is the identity on this model. -/
abbrev SerializedPayload : Type := List Nat

/-- Modelled from the spec: the tagged payload variant stored in a cache
change (`DDSData`): alive-with-serialized-data, disposed-by-serialized-key,
or disposed-by-key-hash. -/
inductive DDSData where
  | new (payload : SerializedPayload)
  | disposedByKey (k : ChangeKind) (key : SerializedPayload)
  | disposedByKeyHash (k : ChangeKind) (hash : Nat)
deriving DecidableEq, Repr

/-- Modelled from the spec: the inline-QoS parameters of a DATA submessage
that the Reader consults, already deserialized (the parameter-list codec is
a black box): an optional key hash, an optional status-info change kind, and
whether a related sample identity is present. -/
structure InlineQosParams where
  keyHash : Option Nat
  statusInfo : Option ChangeKind
deriving DecidableEq, Repr

/-- The unit stored in the topic cache (`CacheChange::new` fields that the
embedded code reads: writer GUID, writer sequence number, payload data).
Write options (source timestamp and related sample identity) are carried as
an optional source timestamp. -/
structure CacheChange where
  writerGuid : GUID
  sequenceNumber : Int
  sourceTimestamp : Option Nat
  dataValue : DDSData
deriving DecidableEq, Repr

/-- Modelled from the spec: `ResourceLimits` QoS policy (fields are Rust
`i32`). -/
structure ResourceLimits where
  max_samples : Int
  max_instances : Int
  max_samples_per_instance : Int
deriving DecidableEq, Repr

/-- Modelled from the spec: `Reliability` QoS policy. -/
inductive Reliability where
  | BestEffort
  | Reliable (maxBlockingTime : Nat)
deriving DecidableEq, Repr

/-- Modelled from the spec: the slice of `QosPolicies` the embedded code
reads (the topic resource limits, used by `TopicCache::remove_changes_before`). -/
structure QosPolicies where
  resourceLimits : Option ResourceLimits
deriving DecidableEq, Repr

/-- `DDSHistoryCache` from `src/structure/dds_cache.rs`: an ordered mapping
`Timestamp → CacheChange`, embedded as an association list whose key
sortedness (the `BTreeMap` invariant) is assumed where needed. -/
structure DDSHistoryCache where
  changes : List (Nat × CacheChange)
deriving DecidableEq, Repr

/-- `BTreeMap::insert` on a key-sorted association list: replaces the value
when the key is present, otherwise inserts at the sorted position. -/
def sortedInsert (k : Nat) (v : CacheChange) :
    List (Nat × CacheChange) → List (Nat × CacheChange)
  | [] => [(k, v)]
  | (k1, v1) :: rest =>
    if k < k1 then (k, v) :: (k1, v1) :: rest
    else if k = k1 then (k, v) :: rest
    else (k1, v1) :: sortedInsert k v rest

/-- `DDSHistoryCache::add_change`: insert keyed by the reception instant; a
pre-existing entry at the same key is silently replaced (only an error is
logged). -/
def DDSHistoryCache.add_change (hc : DDSHistoryCache) (instant : Nat)
    (cacheChange : CacheChange) : DDSHistoryCache :=
  ⟨sortedInsert instant cacheChange hc.changes⟩

/-- `DDSHistoryCache::get_change`. -/
def DDSHistoryCache.get_change (hc : DDSHistoryCache) (instant : Nat) :
    Option CacheChange :=
  alookup instant hc.changes

/-- `DDSHistoryCache::remove_changes_before`: `BTreeMap::split_off`, keeping
exactly the entries whose key is `≥ instant`. -/
def DDSHistoryCache.remove_changes_before (hc : DDSHistoryCache)
    (instant : Nat) : DDSHistoryCache :=
  ⟨hc.changes.filter (fun p => instant ≤ p.1)⟩

/-- `TopicCache` from `src/structure/dds_cache.rs` (topic QoS plus the
history cache), extended with the per-writer reliably-received watermark map
the Reader calls into; the watermark map is modelled from the spec
(`mark_reliably_received_before` is not among the source files). -/
structure TopicCache where
  topicQos : QosPolicies
  historyCache : DDSHistoryCache
  watermarks : List (GUID × Int)
deriving DecidableEq, Repr

/-- The default resource limits used by `TopicCache::remove_changes_before`
when the topic QoS sets none. -/
def defaultResourceLimits : ResourceLimits :=
  ⟨1024, 1024, 64⟩

/-- The retention bound `max_keep_samples` read in
`TopicCache::remove_changes_before`. -/
def TopicCache.maxKeepSamples (tc : TopicCache) : Int :=
  (tc.topicQos.resourceLimits.getD defaultResourceLimits).max_samples

/-- The split key computed by `TopicCache::remove_changes_before`:
`remove_count = len - max_keep_samples`; the key at index
`max(0, remove_count)` (clamped to the last key) is taken and maxed with the
requested cutoff; an empty cache yields the cutoff itself. -/
def TopicCache.splitKey (tc : TopicCache) (instant : Nat) : Nat :=
  match ((tc.historyCache.changes.map Prod.fst).take
      ((max 0 ((tc.historyCache.changes.length : Int) -
        tc.maxKeepSamples)).toNat + 1)).getLast? with
  | none => instant
  | some lim => max lim instant

/-- `TopicCache::remove_changes_before`: compute the split key and drop all
entries strictly below it. -/
def TopicCache.remove_changes_before (tc : TopicCache) (instant : Nat) :
    TopicCache :=
  { tc with
    historyCache := tc.historyCache.remove_changes_before (tc.splitKey instant) }

/-- `TopicCache::add_change`. -/
def TopicCache.add_change (tc : TopicCache) (instant : Nat)
    (cacheChange : CacheChange) : TopicCache :=
  { tc with historyCache := tc.historyCache.add_change instant cacheChange }

/-- The current watermark for a writer (absent entries read as 0; every
stored watermark is an `all_ackable_before` value, hence `≥ 1`). -/
def TopicCache.watermarkOf (tc : TopicCache) (writer : GUID) : Int :=
  (alookup writer tc.watermarks).getD 0

/-- Modelled from the spec: `TopicCache::mark_reliably_received_before`
(not among the source files): raise the watermark for the writer to
`max(current, sn)` and return whether it advanced. -/
def TopicCache.mark_reliably_received_before (tc : TopicCache) (writer : GUID)
    (sn : Int) : TopicCache × Bool :=
  let old := tc.watermarkOf writer
  let nw := max old sn
  ({ tc with watermarks := aupsert writer nw tc.watermarks }, old < nw)

/-- Modelled from the spec: `RtpsWriterProxy` (`rtps_writer_proxy.rs` is not
among the source files). The accounted-for set is kept as two bags of
sequence numbers — delivered (`received`) and marked-irrelevant
(`irrelevant`) — only membership matters. Locator lists and the remote
group entity id play no part in the embedded logic and are omitted. -/
structure RtpsWriterProxy where
  remoteWriterGuid : GUID
  received : List Int
  irrelevant : List Int
  receivedHeartbeatCount : Int
  sentAckNackCount : Int
  lastChangeTimestamp : Option Nat
deriving DecidableEq, Repr

/-- A fresh proxy as discovery hands it over: nothing accounted for,
counters at zero. -/
def RtpsWriterProxy.new (remoteWriterGuid : GUID) : RtpsWriterProxy :=
  ⟨remoteWriterGuid, [], [], 0, 0, none⟩

/-- Membership in the accounted-for set: delivered or marked irrelevant. -/
def RtpsWriterProxy.accountedB (wp : RtpsWriterProxy) (sn : Int) : Bool :=
  sn ∈ wp.received || sn ∈ wp.irrelevant

/-- Modelled from the spec: `should_ignore_change(sn)` — true iff the
sequence number is already accounted for. -/
def RtpsWriterProxy.should_ignore_change (wp : RtpsWriterProxy) (sn : Int) :
    Bool :=
  wp.accountedB sn

/-- Modelled from the spec: `received_changes_add(sn, t)` — mark the
sequence number delivered at `t` and update `last_change_timestamp`. -/
def RtpsWriterProxy.received_changes_add (wp : RtpsWriterProxy) (sn : Int)
    (t : Nat) : RtpsWriterProxy :=
  { wp with received := sn :: wp.received, lastChangeTimestamp := some t }

/-- Modelled from the spec: `set_irrelevant_change(sn)`. -/
def RtpsWriterProxy.set_irrelevant_change (wp : RtpsWriterProxy) (sn : Int) :
    RtpsWriterProxy :=
  { wp with irrelevant := sn :: wp.irrelevant }

/-- Modelled from the spec: `irrelevant_changes_range(lo, hi)` — mark every
sequence number in `[lo, hi)` accounted for without delivery. -/
def RtpsWriterProxy.irrelevant_changes_range (wp : RtpsWriterProxy)
    (lo hi : Int) : RtpsWriterProxy :=
  { wp with irrelevant := intRange lo hi ++ wp.irrelevant }

/-- Modelled from the spec: `irrelevant_changes_up_to(n)` — advance the
history floor to `n`, i.e. mark all of `[1, n)` accounted for. -/
def RtpsWriterProxy.irrelevant_changes_up_to (wp : RtpsWriterProxy)
    (n : Int) : RtpsWriterProxy :=
  { wp with irrelevant := intRange 1 n ++ wp.irrelevant }

/-- Modelled from the spec: `no_changes_received()` — no sample from this
writer has ever been delivered. -/
def RtpsWriterProxy.no_changes_received (wp : RtpsWriterProxy) : Bool :=
  wp.received.isEmpty

/-- Scan upward from `k` for the first value the predicate rejects, with
explicit fuel (the executable core of `all_ackable_before`). -/
def scanFree (mem : Int → Bool) : Int → Nat → Int
  | k, 0 => k
  | k, fuel + 1 => if mem k then scanFree mem (k + 1) fuel else k

/-- An upper bound of a list of integers (at least 0). -/
def boundAbove (l : List Int) : Int :=
  l.foldr (fun x m => max x m) 0

/-- Modelled from the spec: `all_ackable_before()` — the smallest sequence
number `n ≥ 1` such that every sequence number in `[1, n)` is accounted
for; computed by scanning from 1 past the accounted-for values. -/
def RtpsWriterProxy.all_ackable_before (wp : RtpsWriterProxy) : Int :=
  scanFree wp.accountedB 1 ((boundAbove (wp.received ++ wp.irrelevant)).toNat + 1)

/-- Modelled from the spec: `missing_seqnums(first, last)` — the ordered
list of sequence numbers in `[first, last]` not yet accounted for. -/
def RtpsWriterProxy.missing_seqnums (wp : RtpsWriterProxy)
    (firstSn lastSn : Int) : List Int :=
  (intRange firstSn (lastSn + 1)).filter (fun sn => !wp.accountedB sn)

/-- Modelled from the spec: `next_ack_nack_sequence_number()` — return the
current `sent_ack_nack_count` and post-increment it. -/
def RtpsWriterProxy.next_ack_nack_sequence_number (wp : RtpsWriterProxy) :
    Int × RtpsWriterProxy :=
  (wp.sentAckNackCount, { wp with sentAckNackCount := wp.sentAckNackCount + 1 })

/-- Modelled from the spec: a `SequenceNumberSet` submessage element — a
base plus the set (here: ordered list) of sequence numbers it encodes. -/
structure SequenceNumberSet where
  base : Int
  set : List Int
deriving DecidableEq, Repr

/-- Modelled from the spec: `SequenceNumberSet::new_empty`. -/
def SequenceNumberSet.new_empty (base : Int) : SequenceNumberSet :=
  ⟨base, []⟩

/-- Modelled from the spec: `SequenceNumberSet::from_base_and_set`. -/
def SequenceNumberSet.from_base_and_set (base : Int) (set : List Int) :
    SequenceNumberSet :=
  ⟨base, set⟩

/-- Modelled from the spec: a `FragmentNumberSet` submessage element. -/
structure FragmentNumberSet where
  base : Nat
  set : List Nat
deriving DecidableEq, Repr

/-- Modelled from the spec: one `AssemblyBuffer` of the fragment assembler:
the expected total fragment count and the fragment numbers received so far
(1-based). Buffers are destroyed on completion, and the garbage-collection
timestamps play no part in the embedded logic. -/
structure AssemblyBuffer where
  expectedFrags : Nat
  receivedFrags : List Nat
deriving DecidableEq, Repr

/-- The ascending list of fragment numbers of a buffer not yet received. -/
def AssemblyBuffer.missingFrags (b : AssemblyBuffer) : List Nat :=
  ((List.range b.expectedFrags).map (fun i => i + 1)).filter
    (fun f => f ∉ b.receivedFrags)

/-- Modelled from the spec: `FragmentAssembler` for one writer — the
assembly buffers keyed by writer sequence number. -/
structure FragmentAssembler where
  buffers : List (Int × AssemblyBuffer)
deriving DecidableEq, Repr

/-- Modelled from the spec: `FragmentAssembler::missing_frags_for(sn)` —
ascending missing fragment numbers; empty if the sequence number is unknown
or complete. -/
def FragmentAssembler.missing_frags_for (fa : FragmentAssembler) (sn : Int) :
    List Nat :=
  match alookup sn fa.buffers with
  | none => []
  | some b => b.missingFrags

/-- Modelled from the spec: `FragmentAssembler::is_partially_received(sn)` —
true iff some but not all fragments of the sequence number have arrived. -/
def FragmentAssembler.is_partially_received (fa : FragmentAssembler)
    (sn : Int) : Bool :=
  match alookup sn fa.buffers with
  | none => false
  | some b => !b.receivedFrags.isEmpty && !b.missingFrags.isEmpty

/-- An ACKNACK or NACKFRAG submessage as the Reader emits it (the fields
`Reader::handle_heartbeat_msg` and `Reader::send_preemptive_acknacks`
fill in). -/
inductive ReaderSubmessage where
  | ackNack (readerId writerId : EntityId) (readerSnState : SequenceNumberSet)
      (count : Int)
  | nackFrag (readerId writerId : EntityId) (writerSn : Int)
      (fragmentNumberState : FragmentNumberSet) (count : Int)
deriving DecidableEq, Repr

/-- The `count` field of an emitted submessage. -/
def ReaderSubmessage.countOf : ReaderSubmessage → Int
  | .ackNack _ _ _ c => c
  | .nackFrag _ _ _ _ c => c

/-- HEARTBEAT submessage (consumed fields). -/
structure Heartbeat where
  readerId : EntityId
  writerId : EntityId
  firstSn : Int
  lastSn : Int
  count : Int
deriving DecidableEq, Repr

/-- GAP submessage (consumed fields). -/
structure Gap where
  readerId : EntityId
  writerId : EntityId
  gapStart : Int
  gapList : SequenceNumberSet
deriving DecidableEq, Repr

/-- DATA submessage (consumed fields); the payload is the raw byte sequence
carried, `None` when absent. -/
structure Data where
  readerId : EntityId
  writerId : EntityId
  writerSn : Int
  inlineQos : Option InlineQosParams
  serializedPayload : Option SerializedPayload
deriving DecidableEq, Repr

/-- The Reader state (`struct Reader` of `src/rtps/reader.rs`): the fields
the embedded message handlers read or write. Channels, timers, the UDP
sender, the status counters and the security hook are I/O or bookkeeping
outside the embedded logic. -/
structure Reader where
  likeStateless : Bool
  reliability : Reliability
  myGuid : GUID
  topicCache : TopicCache
  fragmentAssemblers : List (GUID × FragmentAssembler)
  matchedWriters : List (GUID × RtpsWriterProxy)
deriving DecidableEq, Repr

/-- `Reader::matched_writer`. -/
def Reader.matched_writer (r : Reader) (writerGuid : GUID) :
    Option RtpsWriterProxy :=
  alookup writerGuid r.matchedWriters

/-- `Reader::is_frag_partially_received`. -/
def Reader.is_frag_partially_received (r : Reader) (writerGuid : GUID)
    (seq : Int) : Bool :=
  match alookup writerGuid r.fragmentAssemblers with
  | none => false
  | some fa => fa.is_partially_received seq

/-- `Reader::missing_frags_for`. -/
def Reader.missing_frags_for (r : Reader) (writerGuid : GUID) (seq : Int) :
    List Nat :=
  match alookup writerGuid r.fragmentAssemblers with
  | none => []
  | some fa => fa.missing_frags_for seq

/-- `Reader::deduce_change_kind` with `no_writers = false` (the only call in
the embedded code): the change kind carried by inline-QoS `status_info`,
defaulting to `NOT_ALIVE_DISPOSED`. -/
def deduce_change_kind (inlineQos : Option InlineQosParams) : ChangeKind :=
  match inlineQos.bind (fun q => q.statusInfo) with
  | some si => si
  | none => ChangeKind.NOT_ALIVE_DISPOSED

/-- `Reader::data_to_dds_data`: derive the `DDSData` variant from the
payload presence and the `Data` / `Key` flags, or reject the submessage.
`SerializedPayload::from_bytes` is black-box deserialization and is
modelled as the identity. -/
def Reader.data_to_dds_data (data : Data) (dataFlag keyFlag : Bool) :
    Except String DDSData :=
  match data.serializedPayload, dataFlag, keyFlag with
  | some serializedPayload, true, false =>
    Except.ok (DDSData.new serializedPayload)
  | some serializedPayload, false, true =>
    Except.ok (DDSData.disposedByKey (deduce_change_kind data.inlineQos)
      serializedPayload)
  | none, false, false =>
    match data.inlineQos.bind (fun q => q.keyHash) with
    | some h =>
      Except.ok (DDSData.disposedByKeyHash (deduce_change_kind data.inlineQos) h)
    | none => Except.error "DATA with no contents"
  | some _, true, true => Except.error "Ambiguous data/key received."
  | some _, false, false => Except.error "DATA message has mystery contents"
  | none, true, _ => Except.error "DATA message contents missing"
  | none, false, true => Except.error "DATA message contents missing"

/-- `Reader::make_cache_change`: build the `CacheChange`, insert it into the
topic cache at the reception instant, and — when not stateless-like and a
proxy is matched — advance the reliably-received watermark to the proxy's
`all_ackable_before()`. -/
def Reader.make_cache_change (r : Reader) (data : DDSData)
    (receiveTimestamp : Nat) (sourceTimestamp : Option Nat) (writerGuid : GUID)
    (writerSn : Int) : Reader :=
  let cacheChange : CacheChange :=
    ⟨writerGuid, writerSn, sourceTimestamp, data⟩
  let tc := r.topicCache.add_change receiveTimestamp cacheChange
  let tc :=
    if !r.likeStateless then
      match alookup writerGuid r.matchedWriters with
      | some wp =>
        (tc.mark_reliably_received_before writerGuid wp.all_ackable_before).1
      | none => tc
    else tc
  { r with topicCache := tc }

/-- `Reader::process_received_data` (the common tail of DATA and completed
DATAFRAG handling): duplicate suppression against the writer proxy — with
the SPDP-participant-reader exception — receipt accounting, cache insertion
and watermark advance. Consumer notification is I/O and is not state. -/
def Reader.process_received_data (r : Reader) (ddsData : DDSData)
    (receiveTimestamp : Nat) (sourceTimestamp : Option Nat) (writerGuid : GUID)
    (writerSn : Int) : Reader :=
  if !r.likeStateless then
    match alookup writerGuid r.matchedWriters with
    | some wp =>
      if wp.should_ignore_change writerSn ∧
          r.myGuid.entityId ≠ EntityId.SPDP_BUILTIN_PARTICIPANT_READER then
        r
      else
        let r1 := { r with
          matchedWriters := aupdate writerGuid
            (fun w => w.received_changes_add writerSn receiveTimestamp)
            r.matchedWriters }
        r1.make_cache_change ddsData receiveTimestamp sourceTimestamp
          writerGuid writerSn
    | none =>
      if writerGuid.entityId.isUserDefined then r
      else
        r.make_cache_change ddsData receiveTimestamp sourceTimestamp
          writerGuid writerSn
  else
    r.make_cache_change ddsData receiveTimestamp sourceTimestamp
      writerGuid writerSn

/-- Build the NACKFRAG list of a heartbeat response: one count is drawn per
partially-received sequence number (post-increment, before the emptiness
check on its missing fragments), and a NACKFRAG is emitted whenever the
missing-fragment list is non-empty. Returns the submessages and the final
counter. -/
def buildNackFrags (r : Reader) (writerGuid : GUID)
    (readerId proxyWriterId : EntityId) :
    List Int → Int → List ReaderSubmessage × Int
  | [], counter => ([], counter)
  | sn :: rest, counter =>
    match r.missing_frags_for writerGuid sn with
    | [] => buildNackFrags r writerGuid readerId proxyWriterId rest (counter + 1)
    | f :: _ =>
      (ReaderSubmessage.nackFrag readerId proxyWriterId sn
          ⟨f, r.missing_frags_for writerGuid sn⟩ counter ::
        (buildNackFrags r writerGuid readerId proxyWriterId rest
          (counter + 1)).1,
        (buildNackFrags r writerGuid readerId proxyWriterId rest
          (counter + 1)).2)

/-- The proxy after the heartbeat-acceptance bookkeeping of
`handle_heartbeat_msg`: record the heartbeat count, then
`irrelevant_changes_up_to(first_sn)`. -/
def hbProxy (wp : RtpsWriterProxy) (heartbeat : Heartbeat) : RtpsWriterProxy :=
  ({ wp with receivedHeartbeatCount := heartbeat.count
    } : RtpsWriterProxy).irrelevant_changes_up_to heartbeat.firstSn

/-- The missing sequence numbers `handle_heartbeat_msg` computes (on the
updated proxy). -/
def hbMissing (wp : RtpsWriterProxy) (heartbeat : Heartbeat) : List Int :=
  (hbProxy wp heartbeat).missing_seqnums heartbeat.firstSn heartbeat.lastSn

/-- The ACKNACK window of `handle_heartbeat_msg`: the missing sequence
numbers up to 256 past the first missing one. -/
def hbWindow (wp : RtpsWriterProxy) (heartbeat : Heartbeat) : List Int :=
  match (hbMissing wp heartbeat).head? with
  | some firstMissing =>
    (hbMissing wp heartbeat).takeWhile (fun sn => sn < firstMissing + 256)
  | none => []

/-- The partially-received sequence numbers of the window, for which
NACKFRAGs are produced instead of ACKNACK set membership. -/
def hbPartialSns (r : Reader) (writerGuid : GUID) (wp : RtpsWriterProxy)
    (heartbeat : Heartbeat) : List Int :=
  (hbWindow wp heartbeat).filter
    (fun sn => r.is_frag_partially_received writerGuid sn)

/-- The `reader_sn_state` of the response ACKNACK. -/
def hbSnState (r : Reader) (writerGuid : GUID) (wp : RtpsWriterProxy)
    (heartbeat : Heartbeat) : SequenceNumberSet :=
  match (hbMissing wp heartbeat).head? with
  | some firstMissing =>
    SequenceNumberSet.from_base_and_set firstMissing
      ((hbWindow wp heartbeat).filter
        (fun sn => !r.is_frag_partially_received writerGuid sn))
  | none => SequenceNumberSet.new_empty (hbProxy wp heartbeat).all_ackable_before

/-- The response ACKNACK: its count is drawn first
(`next_ack_nack_sequence_number`), before any NACKFRAG count. -/
def hbAckNack (r : Reader) (writerGuid : GUID) (wp : RtpsWriterProxy)
    (heartbeat : Heartbeat) : ReaderSubmessage :=
  ReaderSubmessage.ackNack r.myGuid.entityId heartbeat.writerId
    (hbSnState r writerGuid wp heartbeat) (hbProxy wp heartbeat).sentAckNackCount

/-- The NACKFRAG list and the final acknack counter; counts start after the
ACKNACK's. -/
def hbNackFrags (r : Reader) (writerGuid : GUID) (wp : RtpsWriterProxy)
    (heartbeat : Heartbeat) : List ReaderSubmessage × Int :=
  buildNackFrags r writerGuid r.myGuid.entityId wp.remoteWriterGuid.entityId
    (hbPartialSns r writerGuid wp heartbeat)
    ((hbProxy wp heartbeat).sentAckNackCount + 1)

/-- The proxy as re-inserted after a responding heartbeat acceptance. -/
def hbFinalProxy (r : Reader) (writerGuid : GUID) (wp : RtpsWriterProxy)
    (heartbeat : Heartbeat) : RtpsWriterProxy :=
  { hbProxy wp heartbeat with
    sentAckNackCount := (hbNackFrags r writerGuid wp heartbeat).2 }

/-- The accepted-heartbeat path of `handle_heartbeat_msg` (the worker
closure of `with_mutable_writer_proxy` after the duplicate check): advance
the proxy, advance the watermark, and respond iff something is missing or
the final flag is not set. -/
def Reader.heartbeatResponse (r : Reader) (writerGuid : GUID)
    (heartbeat : Heartbeat) (finalFlagSet : Bool) (wp : RtpsWriterProxy) :
    Reader × List ReaderSubmessage × Bool :=
  if !(hbMissing wp heartbeat).isEmpty ∨ !finalFlagSet then
    ({ r with
        topicCache := (r.topicCache.mark_reliably_received_before writerGuid
          (hbProxy wp heartbeat).all_ackable_before).1,
        matchedWriters := aupdate writerGuid
          (fun _ => hbFinalProxy r writerGuid wp heartbeat) r.matchedWriters },
      (hbNackFrags r writerGuid wp heartbeat).1 ++
        [hbAckNack r writerGuid wp heartbeat],
      true)
  else
    ({ r with
        topicCache := (r.topicCache.mark_reliably_received_before writerGuid
          (hbProxy wp heartbeat).all_ackable_before).1,
        matchedWriters := aupdate writerGuid
          (fun _ => hbProxy wp heartbeat) r.matchedWriters },
      [], false)

/-- `Reader::handle_heartbeat_msg`. Returns the updated reader, the emitted
submessages in the order their RTPS messages are handed to the UDP sender
(the NACKFRAG message, when any, strictly before the ACKNACK message), and
whether an ACKNACK was sent. -/
def Reader.handle_heartbeat_msg (r : Reader) (sourceGuidPfx : Nat)
    (heartbeat : Heartbeat) (finalFlagSet : Bool) :
    Reader × List ReaderSubmessage × Bool :=
  if r.reliability = Reliability.BestEffort ∨ r.likeStateless then
    (r, [], false)
  else
    match alookup (⟨sourceGuidPfx, heartbeat.writerId⟩ : GUID)
        r.matchedWriters with
    | none => (r, [], false)
    | some wp =>
      if heartbeat.count ≤ wp.receivedHeartbeatCount then
        (r, [], false)
      else
        r.heartbeatResponse ⟨sourceGuidPfx, heartbeat.writerId⟩ heartbeat
          finalFlagSet wp

/-- `Reader::handle_gap_msg`: validity checks (`gap_start ≥ 1`,
`gap_list.base ≥ 1`), irrelevant-range and listed-sequence-number marking on
the proxy, then watermark advance. -/
def Reader.handle_gap_msg (r : Reader) (sourceGuidPfx : Nat) (gap : Gap) :
    Reader :=
  let writerGuid : GUID := ⟨sourceGuidPfx, gap.writerId⟩
  if r.likeStateless then r
  else
    match alookup writerGuid r.matchedWriters with
    | none => r
    | some wp =>
      if gap.gapStart ≤ 0 then r
      else if gap.gapList.base ≤ 0 then r
      else
        let wp := wp.irrelevant_changes_range gap.gapStart gap.gapList.base
        let wp := gap.gapList.set.foldl
          (fun w sn => w.set_irrelevant_change sn) wp
        let allAckableBefore := wp.all_ackable_before
        let (tc, _markerMoved) :=
          r.topicCache.mark_reliably_received_before writerGuid allAckableBefore
        { r with
          topicCache := tc,
          matchedWriters := aupdate writerGuid (fun _ => wp) r.matchedWriters }

/-- One step of `Reader::send_preemptive_acknacks` for a single proxy: a
proxy with no changes received draws the next acknack count and emits an
ACKNACK with an empty set based at sequence number 1 (`final` not set). -/
def preemptiveStep (readerId : EntityId) (wp : RtpsWriterProxy) :
    RtpsWriterProxy × List ReaderSubmessage :=
  if wp.no_changes_received then
    let (count, wp) := wp.next_ack_nack_sequence_number
    (wp, [ReaderSubmessage.ackNack readerId wp.remoteWriterGuid.entityId
      (SequenceNumberSet.new_empty 1) count])
  else (wp, [])

/-- `Reader::send_preemptive_acknacks`: for every matched proxy with no
changes received, emit a solicitation ACKNACK; a stateless-like reader does
nothing. -/
def Reader.send_preemptive_acknacks (r : Reader) :
    Reader × List ReaderSubmessage :=
  if r.likeStateless then (r, [])
  else
    let stepped := r.matchedWriters.map
      (fun p => (p.1, preemptiveStep r.myGuid.entityId p.2))
    ({ r with matchedWriters := stepped.map (fun p => (p.1, p.2.1)) },
      stepped.foldr (fun p acc => p.2.2 ++ acc) [])

/-! ### Reader events (for trace properties) -/

/-- A submessage-level event the Reader core processes: the operations of
`src/rtps/reader.rs` that touch writer proxies or the topic-cache
watermarks. -/
inductive ReaderEvent where
  | dataMsg (ddsData : DDSData) (receiveTimestamp : Nat)
      (sourceTimestamp : Option Nat) (writerGuid : GUID) (writerSn : Int)
  | heartbeatMsg (sourceGuidPfx : Nat) (hb : Heartbeat) (finalFlag : Bool)
  | gapMsg (sourceGuidPfx : Nat) (gap : Gap)
  | preemptiveAckNack
deriving DecidableEq, Repr

/-- The state transition of one Reader event. -/
def Reader.stepEvent (r : Reader) : ReaderEvent → Reader
  | .dataMsg dd ts st g sn => r.process_received_data dd ts st g sn
  | .heartbeatMsg p hb f => (r.handle_heartbeat_msg p hb f).1
  | .gapMsg p gap => r.handle_gap_msg p gap
  | .preemptiveAckNack => (r.send_preemptive_acknacks).1

/-- Run a list of Reader events in order. -/
def Reader.runEvents (r : Reader) (evs : List ReaderEvent) : Reader :=
  evs.foldl Reader.stepEvent r

/-- The submessages an event emits that concern a given writer: the
heartbeat response when the heartbeat comes from that writer, and the
preemptive ACKNACK generated from that writer's proxy. -/
def Reader.emissionsFor (r : Reader) (g : GUID) :
    ReaderEvent → List ReaderSubmessage
  | .heartbeatMsg p hb f =>
    if (⟨p, hb.writerId⟩ : GUID) = g then (r.handle_heartbeat_msg p hb f).2.1
    else []
  | .preemptiveAckNack =>
    if r.likeStateless then []
    else
      match alookup g r.matchedWriters with
      | some wp => (preemptiveStep r.myGuid.entityId wp).2
      | none => []
  | _ => []

/-- The C6 counterexample state: a topic QoS with `max_samples = 0` and two
cached changes. -/
def tcC6cex : TopicCache :=
  ⟨⟨some ⟨0, 0, 0⟩⟩,
    ⟨[(0, ⟨⟨0, ⟨0, 0⟩⟩, 1, none, DDSData.new [0]⟩),
      (1, ⟨⟨0, ⟨0, 0⟩⟩, 2, none, DDSData.new [1]⟩)]⟩, []⟩

/-- The NACKFRAG list as the specification describes it: one NACKFRAG per
listed sequence number, enumerating its missing fragment numbers (based at
the first missing one), with consecutive counts. -/
def nackFragsSpec (r : Reader) (g : GUID) (readerId proxyWriterId : EntityId) :
    List Int → Int → List ReaderSubmessage
  | [], _ => []
  | sn :: rest, c =>
    ReaderSubmessage.nackFrag readerId proxyWriterId sn
      ⟨(r.missing_frags_for g sn).headI, r.missing_frags_for g sn⟩ c ::
      nackFragsSpec r g readerId proxyWriterId rest (c + 1)

/-- Whether `handle_heartbeat_msg` will accept (not ignore) the heartbeat:
the reader is Reliable and stateful, the writer is matched, and the count
exceeds the proxy's `received_heartbeat_count`. -/
def hbAccepted (r : Reader) (p : Nat) (hb : Heartbeat) : Bool :=
  if r.reliability = Reliability.BestEffort ∨ r.likeStateless = true then false
  else
    match alookup (⟨p, hb.writerId⟩ : GUID) r.matchedWriters with
    | some wp => decide (wp.receivedHeartbeatCount < hb.count)
    | none => false

/-- The counts of the accepted heartbeats along a run of
`handle_heartbeat_msg` calls. -/
def acceptedHeartbeatCounts (p : Nat) : Reader → List (Heartbeat × Bool) → List Int
  | _, [] => []
  | r, (hb, f) :: rest =>
    (if hbAccepted r p hb then [hb.count] else []) ++
      acceptedHeartbeatCounts p (r.handle_heartbeat_msg p hb f).1 rest

/-- The watermark invariant: every matched writer's topic-cache watermark is
at most its proxy's `all_ackable_before()`. -/
def watermarkInv (r : Reader) : Prop :=
  ∀ g wp, alookup g r.matchedWriters = some wp →
    r.topicCache.watermarkOf g ≤ wp.all_ackable_before

/-- The acknack counter currently stored for a writer's proxy (0 when the
writer is not matched). -/
def Reader.counterOf (r : Reader) (g : GUID) : Int :=
  match alookup g r.matchedWriters with
  | some wp => wp.sentAckNackCount
  | none => 0

/-- All submessages emitted for one writer along a run of Reader events, in
emission order. -/
def Reader.traceEmissions (r : Reader) (g : GUID) :
    List ReaderEvent → List ReaderSubmessage
  | [] => []
  | ev :: rest =>
    r.emissionsFor g ev ++ (r.stepEvent ev).traceEmissions g rest

/-! ### Association-list lemmas -/

theorem alookup_mem_keys {α β : Type} [DecidableEq α] (k : α) (v : β) :
    ∀ l : List (α × β), alookup k l = some v → k ∈ l.map Prod.fst := by
  intro l
  induction l with
  | nil => intro h; simp [alookup] at h
  | cons p rest ih =>
    intro h
    by_cases hk : p.1 = k
    · simp [hk]
    · simp only [alookup] at h
      rw [if_neg hk] at h
      simp [ih h]

theorem alookup_aupdate_self {α β : Type} [DecidableEq α] (k : α) (f : β → β) :
    ∀ l : List (α × β), alookup k (aupdate k f l) = (alookup k l).map f := by
  intro l
  induction l with
  | nil => simp [alookup, aupdate]
  | cons p rest ih =>
    by_cases hk : p.1 = k
    · simp [alookup, aupdate, hk]
    · simp [alookup, aupdate, hk, ih]

theorem alookup_aupdate_ne {α β : Type} [DecidableEq α] (k k1 : α) (f : β → β)
    (hne : k1 ≠ k) :
    ∀ l : List (α × β), alookup k1 (aupdate k f l) = alookup k1 l := by
  intro l
  induction l with
  | nil => simp [aupdate]
  | cons p rest ih =>
    by_cases hk : p.1 = k
    · have : p.1 ≠ k1 := by rw [hk]; exact fun h => hne h.symm
      simp [alookup, aupdate, hk, this, Ne.symm hne]
    · simp only [aupdate]
      rw [if_neg hk]
      by_cases hk1 : p.1 = k1
      · simp [alookup, hk1]
      · simp [alookup, hk1, ih]

theorem alookup_aupsert_self {α β : Type} [DecidableEq α] (k : α) (v : β) :
    ∀ l : List (α × β), alookup k (aupsert k v l) = some v := by
  intro l
  induction l with
  | nil => simp [alookup, aupsert]
  | cons p rest ih =>
    by_cases hk : p.1 = k
    · simp [alookup, aupsert, hk]
    · simp [alookup, aupsert, hk, ih]

theorem alookup_aupsert_ne {α β : Type} [DecidableEq α] (k k1 : α) (v : β)
    (hne : k1 ≠ k) :
    ∀ l : List (α × β), alookup k1 (aupsert k v l) = alookup k1 l := by
  intro l
  induction l with
  | nil =>
    have : k ≠ k1 := fun h => hne h.symm
    simp [alookup, aupsert, this]
  | cons p rest ih =>
    by_cases hk : p.1 = k
    · have : p.1 ≠ k1 := by rw [hk]; exact fun h => hne h.symm
      simp [alookup, aupsert, hk, this, Ne.symm hne]
    · simp only [aupsert]
      rw [if_neg hk]
      by_cases hk1 : p.1 = k1
      · simp [alookup, hk1]
      · simp [alookup, hk1, ih]

/-! ### intRange and all_ackable_before characterisation -/

theorem mem_intRange (sn lo hi : Int) :
    sn ∈ intRange lo hi ↔ lo ≤ sn ∧ sn < hi := by
  unfold intRange
  rw [List.mem_map]
  constructor
  · rintro ⟨i, hi1, rfl⟩
    rw [List.mem_range] at hi1
    omega
  · rintro ⟨h1, h2⟩
    refine ⟨(sn - lo).toNat, ?_, ?_⟩
    · rw [List.mem_range]; omega
    · omega

theorem intRange_pairwise (lo hi : Int) :
    (intRange lo hi).Pairwise (fun a b => a < b) := by
  unfold intRange
  refine List.Pairwise.map _ ?_ (List.pairwise_lt_range _)
  intro a b hab
  omega

theorem scanFree_ge (mem : Int → Bool) :
    ∀ (fuel : Nat) (k : Int), k ≤ scanFree mem k fuel := by
  intro fuel
  induction fuel with
  | zero => intro k; simp [scanFree]
  | succ n ih =>
    intro k
    simp only [scanFree]
    by_cases h : mem k
    · simp only [h, if_true]
      have := ih (k + 1)
      omega
    · simp [h]

theorem scanFree_below (mem : Int → Bool) :
    ∀ (fuel : Nat) (k j : Int), k ≤ j → j < scanFree mem k fuel →
      mem j = true := by
  intro fuel
  induction fuel with
  | zero => intro k j h1 h2; simp [scanFree] at h2; omega
  | succ n ih =>
    intro k j h1 h2
    simp only [scanFree] at h2
    by_cases h : mem k
    · simp only [h, if_true] at h2
      by_cases hj : j = k
      · rw [hj]; exact h
      · exact ih (k + 1) j (by omega) h2
    · simp [h] at h2; omega

theorem scanFree_notMem (mem : Int → Bool) :
    ∀ (fuel : Nat) (k : Int),
      (∃ m, k ≤ m ∧ m ≤ k + (fuel : Int) ∧ mem m = false) →
      mem (scanFree mem k fuel) = false := by
  intro fuel
  induction fuel with
  | zero =>
    rintro k ⟨m, h1, h2, h3⟩
    have : m = k := by omega
    subst this
    simpa [scanFree] using h3
  | succ n ih =>
    rintro k ⟨m, h1, h2, h3⟩
    simp only [scanFree]
    by_cases h : mem k
    · simp only [h, if_true]
      refine ih (k + 1) ⟨m, ?_, by omega, h3⟩
      have : m ≠ k := fun he => by rw [he] at h3; rw [h3] at h; exact Bool.noConfusion h
      omega
    · simp only [Bool.not_eq_true] at h
      simp [h]

theorem boundAbove_nonneg (l : List Int) : 0 ≤ boundAbove l := by
  induction l with
  | nil => simp [boundAbove]
  | cons x xs ih =>
    simp only [boundAbove, List.foldr_cons] at *
    exact le_max_of_le_right ih

theorem boundAbove_mem (x : Int) (l : List Int) (h : x ∈ l) :
    x ≤ boundAbove l := by
  induction l with
  | nil => simp at h
  | cons y ys ih =>
    simp only [boundAbove, List.foldr_cons]
    rcases List.mem_cons.mp h with h1 | h1
    · rw [h1]; exact le_max_left _ _
    · exact le_max_of_le_right (ih h1)

/-- `all_ackable_before` is at least 1. -/
theorem aab_pos (wp : RtpsWriterProxy) : 1 ≤ wp.all_ackable_before :=
  scanFree_ge _ _ 1

/-- `all_ackable_before` is not itself accounted for. -/
theorem aab_notMem (wp : RtpsWriterProxy) :
    wp.accountedB wp.all_ackable_before = false := by
  unfold RtpsWriterProxy.all_ackable_before
  apply scanFree_notMem
  refine ⟨boundAbove (wp.received ++ wp.irrelevant) + 1, ?_, ?_, ?_⟩
  · have := boundAbove_nonneg (wp.received ++ wp.irrelevant)
    omega
  · have := boundAbove_nonneg (wp.received ++ wp.irrelevant)
    omega
  · by_contra hcon
    have hmem : wp.accountedB (boundAbove (wp.received ++ wp.irrelevant) + 1) = true := by
      revert hcon
      cases wp.accountedB (boundAbove (wp.received ++ wp.irrelevant) + 1) <;> simp
    have hin : boundAbove (wp.received ++ wp.irrelevant) + 1 ∈
        wp.received ++ wp.irrelevant := by
      simp only [RtpsWriterProxy.accountedB, Bool.or_eq_true, decide_eq_true_eq] at hmem
      simpa using hmem
    have := boundAbove_mem _ _ hin
    omega

/-- Every sequence number in `[1, all_ackable_before)` is accounted for. -/
theorem aab_below (wp : RtpsWriterProxy) (j : Int) (h1 : 1 ≤ j)
    (h2 : j < wp.all_ackable_before) : wp.accountedB j = true :=
  scanFree_below _ _ 1 j h1 h2

/-- `all_ackable_before` is monotone under growth of the accounted-for
set. -/
theorem aab_mono (wp wq : RtpsWriterProxy)
    (h : ∀ k, wp.accountedB k = true → wq.accountedB k = true) :
    wp.all_ackable_before ≤ wq.all_ackable_before := by
  by_contra hcon
  push_neg at hcon
  have h1 : 1 ≤ wq.all_ackable_before := aab_pos wq
  have h2 : wp.accountedB wq.all_ackable_before = true :=
    aab_below wp _ h1 hcon
  have h3 := h _ h2
  rw [aab_notMem wq] at h3
  exact Bool.noConfusion h3

/-- Two proxies with the same accounted-for membership have the same
`all_ackable_before`. -/
theorem aab_congr (wp wq : RtpsWriterProxy)
    (h : ∀ k, wp.accountedB k = wq.accountedB k) :
    wp.all_ackable_before = wq.all_ackable_before :=
  le_antisymm (aab_mono wp wq (fun k hk => (h k) ▸ hk))
    (aab_mono wq wp (fun k hk => (h k).symm ▸ hk))

/-! ### accounted-for membership under the proxy operations -/

theorem accountedB_received_changes_add (wp : RtpsWriterProxy) (sn : Int)
    (t : Nat) (k : Int) :
    (wp.received_changes_add sn t).accountedB k =
      (k = sn || wp.accountedB k) := by
  simp only [RtpsWriterProxy.received_changes_add, RtpsWriterProxy.accountedB,
    List.mem_cons]
  by_cases h : k = sn <;> simp [h, Bool.or_assoc]

theorem accountedB_set_irrelevant_change (wp : RtpsWriterProxy) (sn : Int)
    (k : Int) :
    (wp.set_irrelevant_change sn).accountedB k =
      (k = sn || wp.accountedB k) := by
  simp only [RtpsWriterProxy.set_irrelevant_change, RtpsWriterProxy.accountedB,
    List.mem_cons]
  by_cases h : k = sn <;> by_cases h2 : k ∈ wp.received <;>
    simp [h, h2]

theorem accountedB_irrelevant_changes_range (wp : RtpsWriterProxy)
    (lo hi : Int) (k : Int) :
    (wp.irrelevant_changes_range lo hi).accountedB k =
      (decide (lo ≤ k ∧ k < hi) || wp.accountedB k) := by
  simp only [RtpsWriterProxy.irrelevant_changes_range, RtpsWriterProxy.accountedB,
    List.mem_append, mem_intRange]
  by_cases h : lo ≤ k ∧ k < hi <;> by_cases h2 : k ∈ wp.received <;>
    simp [h, h2]

theorem accountedB_irrelevant_changes_up_to (wp : RtpsWriterProxy)
    (n : Int) (k : Int) :
    (wp.irrelevant_changes_up_to n).accountedB k =
      (decide (1 ≤ k ∧ k < n) || wp.accountedB k) := by
  simp only [RtpsWriterProxy.irrelevant_changes_up_to, RtpsWriterProxy.accountedB,
    List.mem_append, mem_intRange]
  by_cases h : 1 ≤ k ∧ k < n <;> by_cases h2 : k ∈ wp.received <;>
    simp [h, h2]

/-- Setting the received-heartbeat count does not change accounting. -/
theorem accountedB_set_rhc (wp : RtpsWriterProxy) (c : Int) (k : Int) :
    ({ wp with receivedHeartbeatCount := c } : RtpsWriterProxy).accountedB k =
      wp.accountedB k := rfl

/-- `missing_seqnums` is unchanged by `irrelevant_changes_up_to(firstSn)`
for a query window starting at `firstSn` (the newly marked numbers all lie
strictly below it). -/
theorem missing_seqnums_up_to (wp : RtpsWriterProxy) (firstSn lastSn : Int) :
    (wp.irrelevant_changes_up_to firstSn).missing_seqnums firstSn lastSn =
      wp.missing_seqnums firstSn lastSn := by
  unfold RtpsWriterProxy.missing_seqnums
  apply List.filter_congr
  intro sn hsn
  have hmem := (mem_intRange sn firstSn (lastSn + 1)).mp hsn
  rw [accountedB_irrelevant_changes_up_to]
  have : ¬ (1 ≤ sn ∧ sn < firstSn) := by omega
  simp [this]

/-! ### Folding set_irrelevant_change over the GAP list -/

theorem foldl_set_irrelevant_accountedB (l : List Int) :
    ∀ (wp : RtpsWriterProxy) (k : Int),
      (l.foldl (fun w sn => w.set_irrelevant_change sn) wp).accountedB k =
        (decide (k ∈ l) || wp.accountedB k) := by
  induction l with
  | nil => intro wp k; simp
  | cons x xs ih =>
    intro wp k
    simp only [List.foldl_cons, ih, accountedB_set_irrelevant_change,
      List.mem_cons]
    by_cases h1 : k = x <;> by_cases h2 : k ∈ xs <;> simp [h1, h2]

theorem foldl_set_irrelevant_fields (l : List Int) :
    ∀ wp : RtpsWriterProxy,
      (l.foldl (fun w sn => w.set_irrelevant_change sn) wp).received =
          wp.received ∧
        (l.foldl (fun w sn => w.set_irrelevant_change sn) wp).receivedHeartbeatCount =
          wp.receivedHeartbeatCount ∧
        (l.foldl (fun w sn => w.set_irrelevant_change sn) wp).sentAckNackCount =
          wp.sentAckNackCount ∧
        (l.foldl (fun w sn => w.set_irrelevant_change sn) wp).lastChangeTimestamp =
          wp.lastChangeTimestamp ∧
        (l.foldl (fun w sn => w.set_irrelevant_change sn) wp).remoteWriterGuid =
          wp.remoteWriterGuid := by
  induction l with
  | nil => intro wp; exact ⟨rfl, rfl, rfl, rfl, rfl⟩
  | cons x xs ih =>
    intro wp
    simpa [RtpsWriterProxy.set_irrelevant_change] using ih (wp.set_irrelevant_change x)

/-! ### Claim C4 -/

/-- C4: `handle_gap_msg` rejects a GAP whose `gap_start` or `gap_list` base
is below 1, changing nothing; a valid GAP on a matched stateful reader marks
exactly `[gap_start, gap_list.base)` and the listed sequence numbers
irrelevant on the proxy (sample delivery records untouched), then advances
the topic-cache watermark to the proxy's new `all_ackable_before()` (and the
history cache is untouched). -/
theorem claim_C4 (r : Reader) (p : Nat) (gap : Gap) (wp : RtpsWriterProxy) :
    (gap.gapStart < 1 ∨ gap.gapList.base < 1 → r.handle_gap_msg p gap = r) ∧
    (¬ r.likeStateless →
      alookup (⟨p, gap.writerId⟩ : GUID) r.matchedWriters = some wp →
      1 ≤ gap.gapStart → 1 ≤ gap.gapList.base →
      ∃ wp2,
        alookup (⟨p, gap.writerId⟩ : GUID)
            (r.handle_gap_msg p gap).matchedWriters = some wp2 ∧
        (∀ k, wp2.should_ignore_change k =
          (decide (gap.gapStart ≤ k ∧ k < gap.gapList.base) ||
            decide (k ∈ gap.gapList.set) || wp.should_ignore_change k)) ∧
        wp2.received = wp.received ∧
        (r.handle_gap_msg p gap).topicCache.watermarkOf ⟨p, gap.writerId⟩ =
          max (r.topicCache.watermarkOf ⟨p, gap.writerId⟩)
            wp2.all_ackable_before ∧
        (r.topicCache.watermarkOf ⟨p, gap.writerId⟩ ≤ wp.all_ackable_before →
          (r.handle_gap_msg p gap).topicCache.watermarkOf ⟨p, gap.writerId⟩ =
            wp2.all_ackable_before) ∧
        (r.handle_gap_msg p gap).topicCache.historyCache =
          r.topicCache.historyCache) := by
  constructor
  · intro hbad
    unfold Reader.handle_gap_msg
    by_cases hs : r.likeStateless
    · simp [hs]
    · simp only [hs, Bool.false_eq_true, if_false]
      cases halook : alookup (⟨p, gap.writerId⟩ : GUID) r.matchedWriters with
      | none => rfl
      | some wp1 =>
        by_cases hgs : gap.gapStart ≤ 0
        · simp [hgs]
        · have hb : gap.gapList.base ≤ 0 := by omega
          simp [hgs, hb]
  · intro hs hlook hgs hbase
    unfold Reader.handle_gap_msg
    simp only [hs, Bool.false_eq_true, if_false, hlook]
    have h1 : ¬ gap.gapStart ≤ 0 := by omega
    have h2 : ¬ gap.gapList.base ≤ 0 := by omega
    rw [if_neg h1, if_neg h2]
    set wpr := wp.irrelevant_changes_range gap.gapStart gap.gapList.base with hwpr
    set wp2 := gap.gapList.set.foldl (fun w sn => w.set_irrelevant_change sn) wpr
      with hwp2
    refine ⟨wp2, ?_, ?_, ?_, ?_, ?_, rfl⟩
    · show alookup _ (aupdate _ _ _) = _
      rw [alookup_aupdate_self, hlook]
      rfl
    · intro k
      show wp2.accountedB k = _
      rw [hwp2, foldl_set_irrelevant_accountedB, hwpr,
        accountedB_irrelevant_changes_range]
      show _ = (_ || _ || wp.accountedB k)
      by_cases h1 : k ∈ gap.gapList.set <;>
        by_cases h2 : gap.gapStart ≤ k ∧ k < gap.gapList.base <;>
          simp [h1, h2]
    · rw [hwp2, (foldl_set_irrelevant_fields _ wpr).1, hwpr]
      rfl
    · show (TopicCache.watermarkOf ⟨_, _, aupsert _ _ _⟩ _) = _
      unfold TopicCache.watermarkOf
      rw [alookup_aupsert_self]
      rfl
    · intro hw
      show (TopicCache.watermarkOf ⟨_, _, aupsert _ _ _⟩ _) = _
      unfold TopicCache.watermarkOf
      rw [alookup_aupsert_self]
      have hmono : wp.all_ackable_before ≤ wp2.all_ackable_before := by
        apply aab_mono
        intro k hk
        rw [hwp2, foldl_set_irrelevant_accountedB, hwpr,
          accountedB_irrelevant_changes_range, hk]
        simp
      show max (TopicCache.watermarkOf _ _) wp2.all_ackable_before = _
      omega

/-- Witness for C4 (spec Scenario C): on a fresh proxy, GAP with
`gap_start = 1`, `gap_list.base = 3`, listed `{4}` makes 1, 2 and 4
accounted for and advances the watermark to `all_ackable_before = 3`. -/
theorem claim_C4_witness :
    ∃ wp2,
      alookup (⟨7, ⟨1, 2⟩⟩ : GUID)
          ((Reader.mk false (.Reliable 100) ⟨9, ⟨5, 6⟩⟩ ⟨⟨none⟩, ⟨[]⟩, []⟩ []
            [(⟨7, ⟨1, 2⟩⟩, RtpsWriterProxy.new ⟨7, ⟨1, 2⟩⟩)]).handle_gap_msg 7
              ⟨⟨5, 6⟩, ⟨1, 2⟩, 1, ⟨3, [4]⟩⟩).matchedWriters = some wp2 ∧
      (∀ k, wp2.should_ignore_change k =
        (decide ((1 : Int) ≤ k ∧ k < 3) || decide (k ∈ [(4 : Int)]) ||
          (RtpsWriterProxy.new ⟨7, ⟨1, 2⟩⟩).should_ignore_change k)) ∧
      wp2.received = (RtpsWriterProxy.new ⟨7, ⟨1, 2⟩⟩).received ∧
      ((Reader.mk false (.Reliable 100) ⟨9, ⟨5, 6⟩⟩ ⟨⟨none⟩, ⟨[]⟩, []⟩ []
            [(⟨7, ⟨1, 2⟩⟩, RtpsWriterProxy.new ⟨7, ⟨1, 2⟩⟩)]).handle_gap_msg 7
              ⟨⟨5, 6⟩, ⟨1, 2⟩, 1, ⟨3, [4]⟩⟩).topicCache.watermarkOf ⟨7, ⟨1, 2⟩⟩ =
        wp2.all_ackable_before := by
  have h := (claim_C4 (Reader.mk false (.Reliable 100) ⟨9, ⟨5, 6⟩⟩
      ⟨⟨none⟩, ⟨[]⟩, []⟩ [] [(⟨7, ⟨1, 2⟩⟩, RtpsWriterProxy.new ⟨7, ⟨1, 2⟩⟩)]) 7
      ⟨⟨5, 6⟩, ⟨1, 2⟩, 1, ⟨3, [4]⟩⟩ (RtpsWriterProxy.new ⟨7, ⟨1, 2⟩⟩)).2
    (by decide) (by decide) (by decide) (by decide)
  rcases h with ⟨wp2, h1, h2, h3, _h4, h5, _h6⟩
  exact ⟨wp2, h1, h2, h3, h5 (by decide)⟩

/-! ### Claim C6 -/

/-- Core counting bound for the split-key retention: if the key at (clamped)
index `m` of a strictly key-sorted list is at most `c`, then filtering for
keys `≥ c` discards at least the `min m (len-1)` entries before it. -/
theorem key_filter_bound :
    ∀ (l : List (Nat × CacheChange)) (m : Nat) (lim c : Nat),
      (l.map Prod.fst).Pairwise (· < ·) →
      ((l.map Prod.fst).take (m + 1)).getLast? = some lim →
      lim ≤ c →
      (l.filter (fun p => decide (c ≤ p.1))).length + min m (l.length - 1) ≤
        l.length := by
  intro l
  induction l with
  | nil => intro m lim c _ hlast _; simp at hlast
  | cons x xs ih =>
    intro m lim c hsorted hlast hlim
    rw [List.map_cons] at hsorted
    rcases List.pairwise_cons.mp hsorted with ⟨hhead, htail⟩
    match m with
    | 0 =>
      have hf := List.length_filter_le (fun p => decide (c ≤ p.1)) (x :: xs)
      simp only [Nat.zero_min, Nat.add_zero]
      exact hf
    | Nat.succ m' =>
      cases hxs : xs with
      | nil =>
        have hf := List.length_filter_le (fun p => decide (c ≤ p.1)) (x :: xs)
        subst hxs
        simpa using hf
      | cons y ys =>
        subst hxs
        have htake : ((y :: ys).map Prod.fst).take (m' + 1) ≠ [] := by
          simp
        have hlast2 :
            (((y :: ys).map Prod.fst).take (m' + 1)).getLast? = some lim := by
          rw [List.map_cons, List.take_succ_cons] at hlast
          rcases htk : ((y :: ys).map Prod.fst).take (m' + 1) with _ | ⟨z, zs⟩
          · exact absurd htk htake
          · rw [htk] at hlast
            rw [List.getLast?_cons_cons] at hlast
            exact hlast
        have hmem : lim ∈ (y :: ys).map Prod.fst :=
          List.take_subset _ _ (List.mem_of_mem_getLast? hlast2)
        have hxlt : x.1 < lim := hhead lim hmem
        have hnotc : ¬ (c ≤ x.1) := by omega
        have hfilter :
            (x :: y :: ys).filter (fun p => decide (c ≤ p.1)) =
              (y :: ys).filter (fun p => decide (c ≤ p.1)) := by
          rw [List.filter_cons_of_neg]
          simpa using hnotc
        have := ih m' lim c htail hlast2 hlim
        rw [hfilter]
        simp only [List.length_cons] at *
        omega

/-- Counterexample to C6 as stated: with `max_samples = 0` in the topic QoS
and two cached entries, `remove_changes_before` retains one entry —
strictly more than `max_samples` — because the split key is clamped to an
existing key, so at least one entry always survives. -/
theorem claim_C6_cex :
    tcC6cex.maxKeepSamples = 0 ∧
      (tcC6cex.remove_changes_before 0).historyCache.changes.length = 1 ∧
      ¬ (((tcC6cex.remove_changes_before 0).historyCache.changes.length : Int) ≤
          tcC6cex.maxKeepSamples) := by
  refine ⟨rfl, ?_, ?_⟩ <;> decide

/-- C6 (amended): after `TopicCache::remove_changes_before(cutoff)` on a
key-sorted cache, at most `max(1, max_samples)` entries remain — hence at
most `max_samples` whenever `max_samples ≥ 1`, and in particular at most
1024 when the topic QoS sets no resource limit — no entry with timestamp
strictly below `cutoff` remains, and every entry at or above both `cutoff`
and the computed split key is retained. -/
theorem claim_C6 (tc : TopicCache) (instant : Nat)
    (hsorted : (tc.historyCache.changes.map Prod.fst).Pairwise (· < ·)) :
    (((tc.remove_changes_before instant).historyCache.changes.length : Int) ≤
        max 1 tc.maxKeepSamples) ∧
      (1 ≤ tc.maxKeepSamples →
        ((tc.remove_changes_before instant).historyCache.changes.length : Int) ≤
          tc.maxKeepSamples) ∧
      (∀ pr ∈ (tc.remove_changes_before instant).historyCache.changes,
        instant ≤ pr.1) ∧
      (∀ pr ∈ tc.historyCache.changes, instant ≤ pr.1 →
        tc.splitKey instant ≤ pr.1 →
        pr ∈ (tc.remove_changes_before instant).historyCache.changes) := by
  have hlen :
      (((tc.remove_changes_before instant).historyCache.changes.length : Int) ≤
        max 1 tc.maxKeepSamples) := by
    show (((tc.historyCache.changes.filter
        (fun p => decide (tc.splitKey instant ≤ p.1))).length : Int) ≤ _)
    cases hch : tc.historyCache.changes with
    | nil =>
      simp only [hch, List.filter_nil, List.length_nil]
      have : (1 : Int) ≤ max 1 tc.maxKeepSamples := le_max_left _ _
      omega
    | cons x xs =>
      rw [← hch]
      have hne : tc.historyCache.changes.map Prod.fst ≠ [] := by
        rw [hch]; simp
      set m : Nat :=
        (max 0 ((tc.historyCache.changes.length : Int) - tc.maxKeepSamples)).toNat
        with hm
      have htkne : (tc.historyCache.changes.map Prod.fst).take (m + 1) ≠ [] := by
        simp only [ne_eq, List.take_eq_nil_iff]
        push_neg
        exact ⟨Nat.succ_ne_zero m, hne⟩
      cases hlast : ((tc.historyCache.changes.map Prod.fst).take (m + 1)).getLast? with
      | none =>
        exact absurd (List.getLast?_eq_none_iff.mp hlast) htkne
      | some lim =>
        have hsk : tc.splitKey instant = max lim instant := by
          unfold TopicCache.splitKey
          rw [← hm, hlast]
        have hbound := key_filter_bound tc.historyCache.changes m lim
          (max lim instant) hsorted hlast (le_max_left _ _)
        rw [hsk]
        have hlen1 : 1 ≤ tc.historyCache.changes.length := by
          rw [hch]; simp
        rcases le_or_lt ((tc.historyCache.changes.length : Int) - tc.maxKeepSamples)
            0 with hrc | hrc
        · have hm0 : m = 0 := by
            rw [hm, max_eq_left hrc]
            rfl
          rw [hm0] at hbound
          simp only [Nat.zero_min, Nat.add_zero] at hbound
          have hnk : (tc.historyCache.changes.length : Int) ≤ tc.maxKeepSamples := by
            omega
          have hmax : tc.maxKeepSamples ≤ max 1 tc.maxKeepSamples :=
            le_max_right _ _
          omega
        · have hmval : (m : Int) =
              (tc.historyCache.changes.length : Int) - tc.maxKeepSamples := by
            rw [hm, max_eq_right (le_of_lt hrc)]
            exact Int.toNat_of_nonneg (le_of_lt hrc)
          rcases le_or_lt 1 tc.maxKeepSamples with hmk | hmk
          · have hm_le : m ≤ tc.historyCache.changes.length - 1 := by omega
            rw [min_eq_left hm_le] at hbound
            have hmax : tc.maxKeepSamples ≤ max 1 tc.maxKeepSamples :=
              le_max_right _ _
            omega
          · have hm_ge : tc.historyCache.changes.length - 1 ≤ m := by omega
            rw [min_eq_right hm_ge] at hbound
            have hmax : (1 : Int) ≤ max 1 tc.maxKeepSamples := le_max_left _ _
            omega
  refine ⟨hlen, ?_, ?_, ?_⟩
  · intro h1
    have : max 1 tc.maxKeepSamples = tc.maxKeepSamples := max_eq_right h1
    omega
  · intro pr hpr
    have hsp : instant ≤ tc.splitKey instant := by
      unfold TopicCache.splitKey
      cases ((tc.historyCache.changes.map Prod.fst).take _).getLast? with
      | none => exact le_refl _
      | some lim => exact le_max_right _ _
    have := List.of_mem_filter hpr
    simp only [decide_eq_true_eq] at this
    omega
  · intro pr hpr _hin hsp
    exact List.mem_filter.mpr ⟨hpr, by simpa using hsp⟩

/-- Witness for C6 (amended): three entries, `max_samples = 2`, cutoff 0 —
two entries remain, nothing below the cutoff, and the entries at or above
the split key survive. -/
theorem claim_C6_witness :
    (((TopicCache.mk ⟨some ⟨2, 2, 2⟩⟩
        ⟨[(0, ⟨⟨0, ⟨0, 0⟩⟩, 1, none, DDSData.new [0]⟩),
          (1, ⟨⟨0, ⟨0, 0⟩⟩, 2, none, DDSData.new [1]⟩),
          (2, ⟨⟨0, ⟨0, 0⟩⟩, 3, none, DDSData.new [2]⟩)]⟩ []).remove_changes_before
            0).historyCache.changes.length : Int) ≤
      (TopicCache.mk ⟨some ⟨2, 2, 2⟩⟩
        ⟨[(0, ⟨⟨0, ⟨0, 0⟩⟩, 1, none, DDSData.new [0]⟩),
          (1, ⟨⟨0, ⟨0, 0⟩⟩, 2, none, DDSData.new [1]⟩),
          (2, ⟨⟨0, ⟨0, 0⟩⟩, 3, none, DDSData.new [2]⟩)]⟩ []).maxKeepSamples := by
  exact (claim_C6 (TopicCache.mk ⟨some ⟨2, 2, 2⟩⟩
      ⟨[(0, ⟨⟨0, ⟨0, 0⟩⟩, 1, none, DDSData.new [0]⟩),
        (1, ⟨⟨0, ⟨0, 0⟩⟩, 2, none, DDSData.new [1]⟩),
        (2, ⟨⟨0, ⟨0, 0⟩⟩, 3, none, DDSData.new [2]⟩)]⟩ []) 0
    (by decide)).2.1 (by decide)

/-! ### Claim C1 -/

/-- The missing set `handle_heartbeat_msg` computes on the updated proxy
coincides with `missing_seqnums(first_sn, last_sn)` on the proxy as it was
before the heartbeat: setting the heartbeat count does not touch accounting,
and `irrelevant_changes_up_to(first_sn)` only marks numbers strictly below
the queried window. -/
theorem hbMissing_eq (wp : RtpsWriterProxy) (hb : Heartbeat) :
    hbMissing wp hb = wp.missing_seqnums hb.firstSn hb.lastSn := by
  unfold hbMissing hbProxy
  rw [missing_seqnums_up_to]
  rfl

/-- C1: on a Reliable, stateful reader with a matched proxy,
`handle_heartbeat_msg` replies (and returns true) iff the heartbeat count
exceeds the previously accepted count and (the missing set over
`[first_sn, last_sn]` is non-empty or the final flag is unset); a BestEffort
or stateless-like reader, or an unmatched writer, yields no reply and
`false`. -/
theorem claim_C1 (r : Reader) (p : Nat) (hb : Heartbeat) (f : Bool)
    (wp : RtpsWriterProxy) :
    ((r.reliability = Reliability.BestEffort ∨ r.likeStateless = true) →
      r.handle_heartbeat_msg p hb f = (r, [], false)) ∧
    (alookup (⟨p, hb.writerId⟩ : GUID) r.matchedWriters = none →
      r.handle_heartbeat_msg p hb f = (r, [], false)) ∧
    (r.reliability ≠ Reliability.BestEffort → r.likeStateless = false →
      alookup (⟨p, hb.writerId⟩ : GUID) r.matchedWriters = some wp →
      (((r.handle_heartbeat_msg p hb f).2.2 = true) ↔
        (wp.receivedHeartbeatCount < hb.count ∧
          (wp.missing_seqnums hb.firstSn hb.lastSn ≠ [] ∨ f = false))) ∧
      (((r.handle_heartbeat_msg p hb f).2.1 ≠ []) ↔
        (wp.receivedHeartbeatCount < hb.count ∧
          (wp.missing_seqnums hb.firstSn hb.lastSn ≠ [] ∨ f = false)))) := by
  refine ⟨?_, ?_, ?_⟩
  · intro h
    unfold Reader.handle_heartbeat_msg
    rw [if_pos h]
  · intro h
    unfold Reader.handle_heartbeat_msg
    by_cases hg : r.reliability = Reliability.BestEffort ∨ r.likeStateless = true
    · rw [if_pos hg]
    · rw [if_neg hg, h]
  · intro hrel hs hlook
    have hguard : ¬ (r.reliability = Reliability.BestEffort ∨
        r.likeStateless = true) := by
      rintro (h | h)
      · exact hrel h
      · rw [hs] at h; exact Bool.noConfusion h
    unfold Reader.handle_heartbeat_msg
    rw [if_neg hguard, hlook]
    dsimp only
    by_cases hdup : hb.count ≤ wp.receivedHeartbeatCount
    · rw [if_pos hdup]
      constructor
      · constructor
        · intro hcon; exact absurd hcon (by simp)
        · rintro ⟨hlt, _⟩; omega
      · constructor
        · intro hcon; exact absurd rfl hcon
        · rintro ⟨hlt, _⟩; omega
    · rw [if_neg hdup]
      unfold Reader.heartbeatResponse
      by_cases hcond : ((!(hbMissing wp hb).isEmpty) = true ∨ (!f) = true)
      · rw [if_pos hcond]
        have hrhs : wp.receivedHeartbeatCount < hb.count ∧
            (wp.missing_seqnums hb.firstSn hb.lastSn ≠ [] ∨ f = false) := by
          refine ⟨by omega, ?_⟩
          rcases hcond with hc | hc
          · left
            rw [← hbMissing_eq wp hb]
            simpa using hc
          · right
            simpa using hc
        constructor
        · exact ⟨fun _ => hrhs, fun _ => rfl⟩
        · exact ⟨fun _ => hrhs, fun _ => by simp⟩
      · rw [if_neg hcond]
        push_neg at hcond
        obtain ⟨hm0, hf0⟩ := hcond
        have hm : wp.missing_seqnums hb.firstSn hb.lastSn = [] := by
          rw [← hbMissing_eq wp hb]
          simpa using hm0
        have hf : f = true := by
          simpa using hf0
        constructor
        · constructor
          · intro hcon; exact absurd hcon (by simp)
          · rintro ⟨_, hor | hor⟩
            · exact absurd hm hor
            · rw [hf] at hor; exact Bool.noConfusion hor
        · constructor
          · intro hcon; exact absurd rfl hcon
          · rintro ⟨_, hor | hor⟩
            · exact absurd hm hor
            · rw [hf] at hor; exact Bool.noConfusion hor

/-- Witness for C1 (spec Scenario B): first proper HEARTBEAT
`{first=1, last=1, count=1, final=false}` to a fresh Reliable proxy elicits
an ACKNACK; the initial announcement `{first=1, last=0, final=true}` does
not. -/
theorem claim_C1_witness :
    ((Reader.mk false (.Reliable 100) ⟨9, ⟨5, 6⟩⟩ ⟨⟨none⟩, ⟨[]⟩, []⟩ []
        [(⟨7, ⟨1, 2⟩⟩, RtpsWriterProxy.new ⟨7, ⟨1, 2⟩⟩)]).handle_heartbeat_msg 7
          ⟨⟨5, 6⟩, ⟨1, 2⟩, 1, 1, 1⟩ false).2.2 = true := by
  exact (((claim_C1 (Reader.mk false (.Reliable 100) ⟨9, ⟨5, 6⟩⟩
      ⟨⟨none⟩, ⟨[]⟩, []⟩ [] [(⟨7, ⟨1, 2⟩⟩, RtpsWriterProxy.new ⟨7, ⟨1, 2⟩⟩)]) 7
      ⟨⟨5, 6⟩, ⟨1, 2⟩, 1, 1, 1⟩ false
      (RtpsWriterProxy.new ⟨7, ⟨1, 2⟩⟩)).2.2 (by decide) rfl
      (by decide)).1).mpr ⟨by decide, Or.inl (by decide)⟩

/-! ### Claim C2 -/

/-- A partially received sequence number has a non-empty missing-fragment
list (partial means some but not all fragments arrived). -/
theorem missing_frags_ne_nil_of_partial (r : Reader) (g : GUID) (sn : Int)
    (h : r.is_frag_partially_received g sn = true) :
    r.missing_frags_for g sn ≠ [] := by
  unfold Reader.is_frag_partially_received at h
  unfold Reader.missing_frags_for
  cases hfa : alookup g r.fragmentAssemblers with
  | none => rw [hfa] at h; exact Bool.noConfusion h
  | some fa =>
    rw [hfa] at h
    dsimp only at h ⊢
    unfold FragmentAssembler.is_partially_received at h
    unfold FragmentAssembler.missing_frags_for
    cases hb : alookup sn fa.buffers with
    | none => rw [hb] at h; exact Bool.noConfusion h
    | some b =>
      rw [hb] at h
      dsimp only at h ⊢
      simp only [Bool.and_eq_true, Bool.not_eq_true'] at h
      intro hc
      rw [hc] at h
      simp at h

/-- `buildNackFrags` on a list all of whose entries have missing fragments
produces exactly the specified NACKFRAG list and advances the counter by the
list length. -/
theorem buildNackFrags_eq (r : Reader) (g : GUID) (rid wid : EntityId) :
    ∀ (l : List Int) (c : Int),
      (∀ sn ∈ l, r.missing_frags_for g sn ≠ []) →
      buildNackFrags r g rid wid l c =
        (nackFragsSpec r g rid wid l c, c + l.length) := by
  intro l
  induction l with
  | nil => intro c _; simp [buildNackFrags, nackFragsSpec]
  | cons sn rest ih =>
    intro c hne
    have hsn : r.missing_frags_for g sn ≠ [] := hne sn (by simp)
    have hrest : ∀ x ∈ rest, r.missing_frags_for g x ≠ [] :=
      fun x hx => hne x (by simp [hx])
    unfold buildNackFrags
    cases hmf : r.missing_frags_for g sn with
    | nil => exact absurd hmf hsn
    | cons fr frs =>
      dsimp only
      rw [ih (c + 1) hrest]
      have hspec : nackFragsSpec r g rid wid (sn :: rest) c =
          ReaderSubmessage.nackFrag rid wid sn
            ⟨(r.missing_frags_for g sn).headI, r.missing_frags_for g sn⟩ c ::
            nackFragsSpec r g rid wid rest (c + 1) := rfl
      rw [hspec, hmf]
      simp only [List.headI, List.length_cons, Prod.mk.injEq]
      exact ⟨trivial, by omega⟩

/-- `takeWhile (< B)` equals `filter (< B)` on a strictly sorted list. -/
theorem takeWhile_eq_filter_lt (B : Int) :
    ∀ l : List Int, l.Pairwise (· < ·) →
      l.takeWhile (fun sn => decide (sn < B)) =
        l.filter (fun sn => decide (sn < B)) := by
  intro l
  induction l with
  | nil => intro _; rfl
  | cons x xs ih =>
    intro hs
    rcases List.pairwise_cons.mp hs with ⟨hhead, htail⟩
    by_cases hx : x < B
    · rw [List.takeWhile_cons_of_pos (by simpa using hx),
        List.filter_cons_of_pos (by simpa using hx), ih htail]
    · rw [List.takeWhile_cons_of_neg (by simpa using hx),
        List.filter_cons_of_neg (by simpa using hx)]
      symm
      apply List.filter_eq_nil_iff.mpr
      intro a ha
      have := hhead a ha
      simp only [decide_eq_true_eq]
      omega

/-- The missing list is strictly sorted. -/
theorem hbMissing_pairwise (wp : RtpsWriterProxy) (hb : Heartbeat) :
    (hbMissing wp hb).Pairwise (· < ·) := by
  unfold hbMissing RtpsWriterProxy.missing_seqnums
  exact List.Pairwise.filter _ (intRange_pairwise _ _)

/-- With a non-empty missing list, the ACKNACK window is the missing
sequence numbers below `first missing + 256`. -/
theorem hbWindow_eq (wp : RtpsWriterProxy) (hb : Heartbeat) (m0 : Int)
    (rest : List Int) (h : hbMissing wp hb = m0 :: rest) :
    hbWindow wp hb =
      (hbMissing wp hb).filter (fun sn => decide (sn < m0 + 256)) := by
  unfold hbWindow
  rw [h]
  dsimp only [List.head?]
  exact takeWhile_eq_filter_lt (m0 + 256) (m0 :: rest)
    (h ▸ hbMissing_pairwise wp hb)

/-- C2: in an emitted heartbeat response, if the missing list is empty the
ACKNACK's `reader_sn_state` is an empty set based at the proxy's
`all_ackable_before()` and nothing else is emitted; otherwise it is based at
the smallest missing sequence number and holds exactly the missing numbers
strictly below `smallest + 256` that are not partially received, while each
partially received one in that window gets a NACKFRAG enumerating its
missing fragment numbers (emitted in the same message batch, before the
ACKNACK). -/
theorem claim_C2 (r : Reader) (p : Nat) (hb : Heartbeat) (f : Bool)
    (wp : RtpsWriterProxy)
    (hrel : r.reliability ≠ Reliability.BestEffort)
    (hs : r.likeStateless = false)
    (hlook : alookup (⟨p, hb.writerId⟩ : GUID) r.matchedWriters = some wp)
    (hacc : wp.receivedHeartbeatCount < hb.count) :
    (hbMissing wp hb = [] → f = false →
      (r.handle_heartbeat_msg p hb f).2.1 =
        [ReaderSubmessage.ackNack r.myGuid.entityId hb.writerId
          (SequenceNumberSet.new_empty (hbProxy wp hb).all_ackable_before)
          (hbProxy wp hb).sentAckNackCount]) ∧
    (∀ m0 rest, hbMissing wp hb = m0 :: rest →
      (r.handle_heartbeat_msg p hb f).2.1 =
        nackFragsSpec r ⟨p, hb.writerId⟩ r.myGuid.entityId
          wp.remoteWriterGuid.entityId
          ((hbMissing wp hb).filter (fun sn =>
            r.is_frag_partially_received ⟨p, hb.writerId⟩ sn &&
              decide (sn < m0 + 256)))
          ((hbProxy wp hb).sentAckNackCount + 1) ++
        [ReaderSubmessage.ackNack r.myGuid.entityId hb.writerId
          (SequenceNumberSet.from_base_and_set m0
            ((hbMissing wp hb).filter (fun sn =>
              !r.is_frag_partially_received ⟨p, hb.writerId⟩ sn &&
                decide (sn < m0 + 256))))
          (hbProxy wp hb).sentAckNackCount]) := by
  have hguard : ¬ (r.reliability = Reliability.BestEffort ∨
      r.likeStateless = true) := by
    rintro (h | h)
    · exact hrel h
    · rw [hs] at h; exact Bool.noConfusion h
  constructor
  · intro hmiss hf
    unfold Reader.handle_heartbeat_msg
    rw [if_neg hguard, hlook]
    dsimp only
    rw [if_neg (by omega)]
    unfold Reader.heartbeatResponse
    rw [if_pos (by rw [hf]; simp)]
    have hpart : hbPartialSns r ⟨p, hb.writerId⟩ wp hb = [] := by
      unfold hbPartialSns hbWindow
      rw [hmiss]
      rfl
    have hnf : (hbNackFrags r ⟨p, hb.writerId⟩ wp hb).1 = [] := by
      unfold hbNackFrags
      rw [hpart]
      rfl
    rw [hnf]
    unfold hbAckNack hbSnState
    rw [hmiss]
    rfl
  · intro m0 rest hmiss
    unfold Reader.handle_heartbeat_msg
    rw [if_neg hguard, hlook]
    dsimp only
    rw [if_neg (by omega)]
    unfold Reader.heartbeatResponse
    rw [if_pos (by rw [hmiss]; simp)]
    have hwin := hbWindow_eq wp hb m0 rest hmiss
    have hpart : hbPartialSns r ⟨p, hb.writerId⟩ wp hb =
        (hbMissing wp hb).filter (fun sn =>
          r.is_frag_partially_received ⟨p, hb.writerId⟩ sn &&
            decide (sn < m0 + 256)) := by
      unfold hbPartialSns
      rw [hwin, List.filter_filter]
    have hnfspec :
        hbNackFrags r ⟨p, hb.writerId⟩ wp hb =
          (nackFragsSpec r ⟨p, hb.writerId⟩ r.myGuid.entityId
            wp.remoteWriterGuid.entityId
            ((hbMissing wp hb).filter (fun sn =>
              r.is_frag_partially_received ⟨p, hb.writerId⟩ sn &&
                decide (sn < m0 + 256)))
            ((hbProxy wp hb).sentAckNackCount + 1),
          (hbProxy wp hb).sentAckNackCount + 1 +
            ((hbMissing wp hb).filter (fun sn =>
              r.is_frag_partially_received ⟨p, hb.writerId⟩ sn &&
                decide (sn < m0 + 256))).length) := by
      unfold hbNackFrags
      rw [hpart]
      apply buildNackFrags_eq
      intro sn hsn
      have := List.of_mem_filter hsn
      simp only [Bool.and_eq_true] at this
      exact missing_frags_ne_nil_of_partial r _ sn this.1
    have hsnstate : hbSnState r ⟨p, hb.writerId⟩ wp hb =
        SequenceNumberSet.from_base_and_set m0
          ((hbMissing wp hb).filter (fun sn =>
            !r.is_frag_partially_received ⟨p, hb.writerId⟩ sn &&
              decide (sn < m0 + 256))) := by
      unfold hbSnState
      rw [hmiss]
      dsimp only [List.head?]
      rw [← hmiss, hwin, List.filter_filter]
    rw [hnfspec]
    unfold hbAckNack
    rw [hsnstate]

/-- Witness for C2 (spec Scenario E in miniature): one missing sequence
number that is partially received (missing fragment 2) yields a NACKFRAG
for fragment 2 followed by an ACKNACK whose set omits the partially
received number. -/
theorem claim_C2_witness :
    ((Reader.mk false (.Reliable 100) ⟨9, ⟨5, 6⟩⟩ ⟨⟨none⟩, ⟨[]⟩, []⟩
        [(⟨7, ⟨1, 2⟩⟩, ⟨[(1, ⟨2, [1]⟩)]⟩)]
        [(⟨7, ⟨1, 2⟩⟩, RtpsWriterProxy.new ⟨7, ⟨1, 2⟩⟩)]).handle_heartbeat_msg 7
          ⟨⟨5, 6⟩, ⟨1, 2⟩, 1, 1, 1⟩ false).2.1 =
      [ReaderSubmessage.nackFrag ⟨5, 6⟩ ⟨1, 2⟩ 1 ⟨2, [2]⟩ 1,
        ReaderSubmessage.ackNack ⟨5, 6⟩ ⟨1, 2⟩ ⟨1, []⟩ 0] := by
  have h := (claim_C2 (Reader.mk false (.Reliable 100) ⟨9, ⟨5, 6⟩⟩
      ⟨⟨none⟩, ⟨[]⟩, []⟩ [(⟨7, ⟨1, 2⟩⟩, ⟨[(1, ⟨2, [1]⟩)]⟩)]
      [(⟨7, ⟨1, 2⟩⟩, RtpsWriterProxy.new ⟨7, ⟨1, 2⟩⟩)]) 7
      ⟨⟨5, 6⟩, ⟨1, 2⟩, 1, 1, 1⟩ false (RtpsWriterProxy.new ⟨7, ⟨1, 2⟩⟩)
      (by decide) rfl (by decide) (by decide)).2 1 [] (by decide)
  rw [h]
  decide

/-! ### Claim C3 -/

/-- A non-accepted heartbeat leaves the reader state unchanged. -/
theorem handle_heartbeat_not_accepted (r : Reader) (p : Nat) (hb : Heartbeat)
    (f : Bool) (h : hbAccepted r p hb = false) :
    (r.handle_heartbeat_msg p hb f).1 = r := by
  unfold hbAccepted at h
  unfold Reader.handle_heartbeat_msg
  by_cases hg : r.reliability = Reliability.BestEffort ∨ r.likeStateless = true
  · rw [if_pos hg]
  · rw [if_neg hg] at h
    rw [if_neg hg]
    cases hlook : alookup (⟨p, hb.writerId⟩ : GUID) r.matchedWriters with
    | none => rfl
    | some wp =>
      rw [hlook] at h
      dsimp only at h ⊢
      simp only [decide_eq_false_iff_not, not_lt] at h
      rw [if_pos h]

/-- An accepted heartbeat stores a proxy whose
`received_heartbeat_count` is the heartbeat's count. -/
theorem handle_heartbeat_accepted_lookup (r : Reader) (p : Nat)
    (hb : Heartbeat) (f : Bool) (hacc : hbAccepted r p hb = true) :
    ∃ wp2, alookup (⟨p, hb.writerId⟩ : GUID)
        (r.handle_heartbeat_msg p hb f).1.matchedWriters = some wp2 ∧
      wp2.receivedHeartbeatCount = hb.count := by
  unfold hbAccepted at hacc
  by_cases hg : r.reliability = Reliability.BestEffort ∨ r.likeStateless = true
  · rw [if_pos hg] at hacc
    exact absurd hacc (by simp)
  · rw [if_neg hg] at hacc
    unfold Reader.handle_heartbeat_msg
    rw [if_neg hg]
    cases hlook : alookup (⟨p, hb.writerId⟩ : GUID) r.matchedWriters with
    | none =>
      rw [hlook] at hacc
      simp at hacc
    | some wp =>
      rw [hlook] at hacc
      dsimp only at hacc ⊢
      simp only [decide_eq_true_eq] at hacc
      rw [if_neg (by omega)]
      unfold Reader.heartbeatResponse
      by_cases hcond : ((!(hbMissing wp hb).isEmpty) = true ∨ (!f) = true)
      · rw [if_pos hcond]
        refine ⟨hbFinalProxy r ⟨p, hb.writerId⟩ wp hb, ?_, rfl⟩
        show alookup _ (aupdate _ _ _) = _
        rw [alookup_aupdate_self, hlook]
        rfl
      · rw [if_neg hcond]
        refine ⟨hbProxy wp hb, ?_, rfl⟩
        show alookup _ (aupdate _ _ _) = _
        rw [alookup_aupdate_self, hlook]
        rfl

/-- A heartbeat addressed to an unmatched writer keeps the writer
unmatched, so a run with no proxy accepts nothing. -/
theorem acceptedCounts_nil_of_none (p : Nat) (wid : EntityId) :
    ∀ (evs : List (Heartbeat × Bool)) (r : Reader),
      (∀ e ∈ evs, (e.1 : Heartbeat).writerId = wid) →
      alookup (⟨p, wid⟩ : GUID) r.matchedWriters = none →
      acceptedHeartbeatCounts p r evs = [] := by
  intro evs
  induction evs with
  | nil => intro r _ _; rfl
  | cons e rest ih =>
    intro r hsame hnone
    obtain ⟨hb, f⟩ := e
    have hwid : hb.writerId = wid := hsame (hb, f) (by simp)
    have hacc : hbAccepted r p hb = false := by
      unfold hbAccepted
      by_cases hg : r.reliability = Reliability.BestEffort ∨ r.likeStateless = true
      · rw [if_pos hg]
      · rw [if_neg hg, hwid, hnone]
    have hst := handle_heartbeat_not_accepted r p hb f hacc
    unfold acceptedHeartbeatCounts
    rw [hacc, hst]
    simpa using ih r (fun e he => hsame e (by simp [he])) hnone

/-- Every count accepted along a run from a state whose proxy has
`received_heartbeat_count = c` is strictly greater than `c`. -/
theorem acceptedCounts_all_gt (p : Nat) (wid : EntityId) :
    ∀ (evs : List (Heartbeat × Bool)) (r : Reader) (wp : RtpsWriterProxy),
      (∀ e ∈ evs, (e.1 : Heartbeat).writerId = wid) →
      alookup (⟨p, wid⟩ : GUID) r.matchedWriters = some wp →
      ∀ c ∈ acceptedHeartbeatCounts p r evs,
        wp.receivedHeartbeatCount < c := by
  intro evs
  induction evs with
  | nil => intro r wp _ _ c hc; simp [acceptedHeartbeatCounts] at hc
  | cons e rest ih =>
    intro r wp hsame hlook c hc
    obtain ⟨hb, f⟩ := e
    have hwid : hb.writerId = wid := hsame (hb, f) (by simp)
    have hrest : ∀ e ∈ rest, (e.1 : Heartbeat).writerId = wid :=
      fun e he => hsame e (by simp [he])
    unfold acceptedHeartbeatCounts at hc
    by_cases hacc : hbAccepted r p hb = true
    · rw [hacc] at hc
      simp only [if_true, List.mem_append, List.mem_singleton] at hc
      have hlt : wp.receivedHeartbeatCount < hb.count := by
        unfold hbAccepted at hacc
        by_cases hg : r.reliability = Reliability.BestEffort ∨
            r.likeStateless = true
        · rw [if_pos hg] at hacc; exact absurd hacc (by simp)
        · rw [if_neg hg, hwid, hlook] at hacc
          simpa using hacc
      rcases hc with hc | hc
      · omega
      · obtain ⟨wp2, hlook2, hrhc2⟩ :=
          handle_heartbeat_accepted_lookup r p hb f hacc
        rw [hwid] at hlook2
        have := ih (r.handle_heartbeat_msg p hb f).1 wp2 hrest hlook2 c hc
        omega
    · rw [Bool.not_eq_true] at hacc
      simp only [hacc, Bool.false_eq_true, if_false, List.nil_append] at hc
      rw [handle_heartbeat_not_accepted r p hb f hacc] at hc
      exact ih r wp hrest hlook c hc

/-- C3: a HEARTBEAT whose count is at most the proxy's
`received_heartbeat_count` changes no state and produces no reply; an
accepted HEARTBEAT sets `received_heartbeat_count` to its count; and along
any run of heartbeats from one writer the accepted counts are strictly
increasing. -/
theorem claim_C3 (r : Reader) (p : Nat) (hb : Heartbeat) (f : Bool)
    (wp : RtpsWriterProxy) (evs : List (Heartbeat × Bool)) (wid : EntityId) :
    (alookup (⟨p, hb.writerId⟩ : GUID) r.matchedWriters = some wp →
      hb.count ≤ wp.receivedHeartbeatCount →
      r.handle_heartbeat_msg p hb f = (r, [], false)) ∧
    (r.reliability ≠ Reliability.BestEffort → r.likeStateless = false →
      alookup (⟨p, hb.writerId⟩ : GUID) r.matchedWriters = some wp →
      wp.receivedHeartbeatCount < hb.count →
      ∃ wp2, alookup (⟨p, hb.writerId⟩ : GUID)
          (r.handle_heartbeat_msg p hb f).1.matchedWriters = some wp2 ∧
        wp2.receivedHeartbeatCount = hb.count) ∧
    ((∀ e ∈ evs, (e.1 : Heartbeat).writerId = wid) →
      List.Chain' (· < ·) (acceptedHeartbeatCounts p r evs)) := by
  refine ⟨?_, ?_, ?_⟩
  · intro hlook hdup
    unfold Reader.handle_heartbeat_msg
    by_cases hg : r.reliability = Reliability.BestEffort ∨ r.likeStateless = true
    · rw [if_pos hg]
    · rw [if_neg hg, hlook]
      dsimp only
      rw [if_pos hdup]
  · intro hrel hs hlook hacc
    apply handle_heartbeat_accepted_lookup
    unfold hbAccepted
    rw [if_neg (by rintro (h | h); exact hrel h; rw [hs] at h; exact Bool.noConfusion h),
      hlook]
    simpa using hacc
  · intro hsame
    induction evs generalizing r with
    | nil => exact List.chain'_nil
    | cons e rest ih =>
      obtain ⟨hb1, f1⟩ := e
      have hwid : hb1.writerId = wid := hsame (hb1, f1) (by simp)
      have hrest : ∀ e ∈ rest, (e.1 : Heartbeat).writerId = wid :=
        fun e he => hsame e (by simp [he])
      unfold acceptedHeartbeatCounts
      by_cases hacc : hbAccepted r p hb1 = true
      · rw [hacc]
        simp only [if_true, List.singleton_append]
        rw [List.chain'_cons']
        refine ⟨?_, ih _ hrest⟩
        intro b hb2
        obtain ⟨wp2, hlook2, hrhc2⟩ :=
          handle_heartbeat_accepted_lookup r p hb1 f1 hacc
        rw [hwid] at hlook2
        have := acceptedCounts_all_gt p wid rest
          (r.handle_heartbeat_msg p hb1 f1).1 wp2 hrest hlook2 b
          (List.mem_of_mem_head? hb2)
        omega
      · rw [Bool.not_eq_true] at hacc
        simp only [hacc, Bool.false_eq_true, if_false, List.nil_append]
        rw [handle_heartbeat_not_accepted r p hb1 f1 hacc]
        exact ih r hrest

/-- Witness for C3: a duplicate heartbeat (count 1 twice) is ignored
without a reply. -/
theorem claim_C3_witness :
    (Reader.mk false (.Reliable 100) ⟨9, ⟨5, 6⟩⟩ ⟨⟨none⟩, ⟨[]⟩, []⟩ []
        [(⟨7, ⟨1, 2⟩⟩, ⟨⟨7, ⟨1, 2⟩⟩, [], [], 1, 0, none⟩)]).handle_heartbeat_msg 7
          ⟨⟨5, 6⟩, ⟨1, 2⟩, 1, 1, 1⟩ false =
      (Reader.mk false (.Reliable 100) ⟨9, ⟨5, 6⟩⟩ ⟨⟨none⟩, ⟨[]⟩, []⟩ []
        [(⟨7, ⟨1, 2⟩⟩, ⟨⟨7, ⟨1, 2⟩⟩, [], [], 1, 0, none⟩)], [], false) := by
  exact (claim_C3 (Reader.mk false (.Reliable 100) ⟨9, ⟨5, 6⟩⟩
      ⟨⟨none⟩, ⟨[]⟩, []⟩ [] [(⟨7, ⟨1, 2⟩⟩, ⟨⟨7, ⟨1, 2⟩⟩, [], [], 1, 0, none⟩)]) 7
      ⟨⟨5, 6⟩, ⟨1, 2⟩, 1, 1, 1⟩ false ⟨⟨7, ⟨1, 2⟩⟩, [], [], 1, 0, none⟩ [] ⟨1, 2⟩).1
    (by decide) (by decide)

/-! ### Claim C8 -/

theorem alookup_map_value {α β : Type} [DecidableEq α] (k : α) (f : β → β) :
    ∀ l : List (α × β),
      alookup k (l.map (fun q => (q.1, f q.2))) = (alookup k l).map f := by
  intro l
  induction l with
  | nil => simp [alookup]
  | cons q rest ih =>
    by_cases hk : q.1 = k
    · simp [alookup, hk]
    · simp [alookup, hk, ih]

/-- What `make_cache_change` does to the watermarks and proxies: proxies are
untouched; watermarks of other writers are untouched; the writer's own
watermark is raised to its proxy's `all_ackable_before()` exactly when the
reader is stateful and the writer matched. -/
theorem make_cache_change_wm (r : Reader) (dd : DDSData) (ts : Nat)
    (st : Option Nat) (g : GUID) (sn : Int) :
    (r.make_cache_change dd ts st g sn).matchedWriters = r.matchedWriters ∧
    (∀ g2 : GUID, g2 ≠ g →
      (r.make_cache_change dd ts st g sn).topicCache.watermarkOf g2 =
        r.topicCache.watermarkOf g2) ∧
    (r.likeStateless = true →
      (r.make_cache_change dd ts st g sn).topicCache.watermarkOf g =
        r.topicCache.watermarkOf g) ∧
    (r.likeStateless = false → alookup g r.matchedWriters = none →
      (r.make_cache_change dd ts st g sn).topicCache.watermarkOf g =
        r.topicCache.watermarkOf g) ∧
    (∀ wq, r.likeStateless = false → alookup g r.matchedWriters = some wq →
      (r.make_cache_change dd ts st g sn).topicCache.watermarkOf g =
        max (r.topicCache.watermarkOf g) wq.all_ackable_before) := by
  refine ⟨rfl, ?_, ?_, ?_, ?_⟩
  · intro g2 hne
    unfold Reader.make_cache_change
    by_cases hsb : r.likeStateless
    · simp only [hsb, Bool.not_true, Bool.false_eq_true, if_false]
      rfl
    · have hsF : r.likeStateless = false := by simp [hsb]
      simp only [hsF, Bool.not_false, if_true]
      cases hlk : alookup g r.matchedWriters with
      | none => rfl
      | some wq =>
        unfold TopicCache.mark_reliably_received_before TopicCache.watermarkOf
        dsimp only
        rw [alookup_aupsert_ne g g2 _ hne]
        rfl
  · intro hsT
    unfold Reader.make_cache_change
    simp only [hsT, Bool.not_true, Bool.false_eq_true, if_false]
    rfl
  · intro hsF hlk
    unfold Reader.make_cache_change
    simp only [hsF, Bool.not_false, if_true, hlk]
    rfl
  · intro wq hsF hlk
    unfold Reader.make_cache_change
    simp only [hsF, Bool.not_false, if_true, hlk]
    unfold TopicCache.mark_reliably_received_before TopicCache.watermarkOf
    dsimp only
    rw [alookup_aupsert_self]
    rfl

/-- What `process_received_data` does to the proxies and the watermarks:
other writers are untouched; the target writer either keeps its state or
gains the received sequence number on its proxy with its watermark raised to
the proxy's new `all_ackable_before()`. -/
theorem process_received_data_wm (r : Reader) (dd : DDSData) (ts : Nat)
    (st : Option Nat) (g : GUID) (sn : Int) :
    (∀ g2, g2 ≠ g →
      alookup g2 (r.process_received_data dd ts st g sn).matchedWriters =
        alookup g2 r.matchedWriters ∧
      (r.process_received_data dd ts st g sn).topicCache.watermarkOf g2 =
        r.topicCache.watermarkOf g2) ∧
    ((alookup g (r.process_received_data dd ts st g sn).matchedWriters =
        alookup g r.matchedWriters ∧
      (r.process_received_data dd ts st g sn).topicCache.watermarkOf g =
        r.topicCache.watermarkOf g) ∨
      (∃ wq, alookup g r.matchedWriters = some wq ∧
        alookup g (r.process_received_data dd ts st g sn).matchedWriters =
          some (wq.received_changes_add sn ts) ∧
        (r.process_received_data dd ts st g sn).topicCache.watermarkOf g =
          max (r.topicCache.watermarkOf g)
            (wq.received_changes_add sn ts).all_ackable_before)) := by
  unfold Reader.process_received_data
  obtain ⟨hmw, hwm2, hwmT, hwmN, hwmS⟩ := make_cache_change_wm r dd ts st g sn
  by_cases hsb : r.likeStateless
  · have hsT : r.likeStateless = true := by simp [hsb]
    simp only [hsT, Bool.not_true, Bool.false_eq_true, if_false]
    exact ⟨fun g2 hne => ⟨by rw [hmw], (hwm2 g2 hne)⟩,
      Or.inl ⟨by rw [hmw], hwmT hsT⟩⟩
  · have hsF : r.likeStateless = false := by simp [hsb]
    simp only [hsF, Bool.not_false, if_true]
    cases hlk : alookup g r.matchedWriters with
    | none =>
      dsimp only
      by_cases hud : g.entityId.isUserDefined
      · simp only [hud, if_true]
        refine ⟨fun g2 hne => ⟨?_, ?_⟩, Or.inl ⟨?_, ?_⟩⟩ <;> trivial
      · simp only [hud, Bool.false_eq_true, if_false]
        exact ⟨fun g2 hne => ⟨by rw [hmw], hwm2 g2 hne⟩,
          Or.inl ⟨by rw [hmw]; exact hlk, hwmN hsF hlk⟩⟩
    | some wq =>
      dsimp only
      by_cases hig : wq.should_ignore_change sn = true ∧
          r.myGuid.entityId ≠ EntityId.SPDP_BUILTIN_PARTICIPANT_READER
      · rw [if_pos hig]
        refine ⟨fun g2 hne => ⟨?_, ?_⟩, Or.inl ⟨?_, ?_⟩⟩ <;> trivial
      · rw [if_neg hig]
        obtain ⟨hmw1, hwm21, hwmT1, hwmN1, hwmS1⟩ := make_cache_change_wm
          (Reader.mk false r.reliability r.myGuid r.topicCache
            r.fragmentAssemblers
            (aupdate g (fun w => w.received_changes_add sn ts)
              r.matchedWriters))
          dd ts st g sn
        have hlk1 : alookup g (aupdate g
            (fun w => w.received_changes_add sn ts) r.matchedWriters) =
            some (wq.received_changes_add sn ts) := by
          rw [alookup_aupdate_self, hlk]
          rfl
        have hwmg := hwmS1 (wq.received_changes_add sn ts) rfl hlk1
        constructor
        · intro g2 hne
          refine ⟨?_, hwm21 g2 hne⟩
          rw [hmw1]
          show alookup g2 (aupdate g _ r.matchedWriters) = _
          rw [alookup_aupdate_ne g g2 _ hne]
        · right
          refine ⟨wq, rfl, ?_, hwmg⟩
          rw [hmw1]
          exact hlk1

theorem mark_watermark_self (tc : TopicCache) (g : GUID) (v : Int) :
    (tc.mark_reliably_received_before g v).1.watermarkOf g =
      max (tc.watermarkOf g) v := by
  unfold TopicCache.mark_reliably_received_before TopicCache.watermarkOf
  dsimp only
  rw [alookup_aupsert_self]
  rfl

theorem mark_watermark_ne (tc : TopicCache) (g g2 : GUID) (v : Int)
    (hne : g2 ≠ g) :
    (tc.mark_reliably_received_before g v).1.watermarkOf g2 =
      tc.watermarkOf g2 := by
  unfold TopicCache.mark_reliably_received_before TopicCache.watermarkOf
  dsimp only
  rw [alookup_aupsert_ne g g2 _ hne]

/-- `buildNackFrags` draws one count per listed sequence number. -/
theorem buildNackFrags_counter (r : Reader) (g : GUID) (rid wid : EntityId) :
    ∀ (l : List Int) (c : Int),
      (buildNackFrags r g rid wid l c).2 = c + l.length := by
  intro l
  induction l with
  | nil => intro c; simp [buildNackFrags]
  | cons sn rest ih =>
    intro c
    unfold buildNackFrags
    cases hmf : r.missing_frags_for g sn with
    | nil =>
      rw [ih (c + 1)]
      simp only [List.length_cons]
      omega
    | cons fr frs =>
      rw [ih (c + 1)]
      simp only [List.length_cons]
      omega

/-- Every NACKFRAG produced by `buildNackFrags` carries a count in the
drawn range. -/
theorem buildNackFrags_counts_mem (r : Reader) (g : GUID)
    (rid wid : EntityId) :
    ∀ (l : List Int) (c : Int) (s : ReaderSubmessage),
      s ∈ (buildNackFrags r g rid wid l c).1 →
      c ≤ s.countOf ∧ s.countOf < c + l.length := by
  intro l
  induction l with
  | nil => intro c s hs; simp [buildNackFrags] at hs
  | cons sn rest ih =>
    intro c s hs
    unfold buildNackFrags at hs
    cases hmf : r.missing_frags_for g sn with
    | nil =>
      simp only [hmf] at hs
      obtain ⟨h1, h2⟩ := ih (c + 1) s hs
      simp only [List.length_cons]
      omega
    | cons fr frs =>
      simp only [hmf] at hs
      rcases List.mem_cons.mp hs with rfl | hs2
      · simp only [ReaderSubmessage.countOf, List.length_cons]
        omega
      · obtain ⟨h1, h2⟩ := ih (c + 1) s hs2
        simp only [List.length_cons]
        omega

/-- Accounting of the proxy stored back by `hbFinalProxy`: same as
`hbProxy` (only the acknack counter differs). -/
theorem hbFinalProxy_accountedB (r : Reader) (g : GUID)
    (wp : RtpsWriterProxy) (hb : Heartbeat) (k : Int) :
    (hbFinalProxy r g wp hb).accountedB k = (hbProxy wp hb).accountedB k := rfl

/-- The accepted path of `handle_heartbeat_msg` is `heartbeatResponse`. -/
theorem handle_heartbeat_accepted_eq (r : Reader) (p : Nat) (hb : Heartbeat)
    (f : Bool) (wp : RtpsWriterProxy)
    (hg : ¬ (r.reliability = Reliability.BestEffort ∨ r.likeStateless = true))
    (hlook : alookup (⟨p, hb.writerId⟩ : GUID) r.matchedWriters = some wp)
    (hlt : wp.receivedHeartbeatCount < hb.count) :
    r.handle_heartbeat_msg p hb f =
      r.heartbeatResponse ⟨p, hb.writerId⟩ hb f wp := by
  unfold Reader.handle_heartbeat_msg
  rw [if_neg hg, hlook]
  dsimp only
  rw [if_neg (by omega)]

/-- What an accepted heartbeat does to the reader state: the proxy is
replaced by one with the `hbProxy` accounting (and an acknack counter at
least the old one), and the topic cache is marked at the updated proxy's
`all_ackable_before()`. -/
theorem heartbeatResponse_wm (r : Reader) (g : GUID) (hb : Heartbeat)
    (f : Bool) (wp : RtpsWriterProxy) :
    ∃ wpX : RtpsWriterProxy,
      (∀ k, wpX.accountedB k = (hbProxy wp hb).accountedB k) ∧
      wp.sentAckNackCount ≤ wpX.sentAckNackCount ∧
      (r.heartbeatResponse g hb f wp).1.matchedWriters =
        aupdate g (fun _ => wpX) r.matchedWriters ∧
      (r.heartbeatResponse g hb f wp).1.topicCache =
        (r.topicCache.mark_reliably_received_before g
          (hbProxy wp hb).all_ackable_before).1 := by
  unfold Reader.heartbeatResponse
  by_cases hcond : ((!(hbMissing wp hb).isEmpty) = true ∨ (!f) = true)
  · rw [if_pos hcond]
    refine ⟨hbFinalProxy r g wp hb, fun k => rfl, ?_, rfl, rfl⟩
    show wp.sentAckNackCount ≤ (hbNackFrags r g wp hb).2
    unfold hbNackFrags
    rw [buildNackFrags_counter]
    have : (hbProxy wp hb).sentAckNackCount = wp.sentAckNackCount := rfl
    omega
  · rw [if_neg hcond]
    exact ⟨hbProxy wp hb, fun k => rfl, le_refl _, rfl, rfl⟩

/-- Accounting grows from `wp` to `hbProxy wp hb`. -/
theorem hbProxy_accountedB_mono (wp : RtpsWriterProxy) (hb : Heartbeat)
    (k : Int) (h : wp.accountedB k = true) :
    (hbProxy wp hb).accountedB k = true := by
  unfold hbProxy
  rw [accountedB_irrelevant_changes_up_to]
  show (_ || ({ wp with receivedHeartbeatCount := hb.count
    } : RtpsWriterProxy).accountedB k) = true
  rw [accountedB_set_rhc, h]
  simp

/-- What `handle_gap_msg` does to the reader state: either nothing, or the
proxy's accounting grows and the topic cache is marked at the new proxy's
`all_ackable_before()`. -/
theorem handle_gap_wm (r : Reader) (p : Nat) (gap : Gap) :
    r.handle_gap_msg p gap = r ∨
    ∃ wp wp2 : RtpsWriterProxy,
      alookup (⟨p, gap.writerId⟩ : GUID) r.matchedWriters = some wp ∧
      (∀ k, wp.accountedB k = true → wp2.accountedB k = true) ∧
      wp2.sentAckNackCount = wp.sentAckNackCount ∧
      (r.handle_gap_msg p gap).matchedWriters =
        aupdate (⟨p, gap.writerId⟩ : GUID) (fun _ => wp2) r.matchedWriters ∧
      (r.handle_gap_msg p gap).topicCache =
        (r.topicCache.mark_reliably_received_before (⟨p, gap.writerId⟩ : GUID)
          wp2.all_ackable_before).1 := by
  unfold Reader.handle_gap_msg
  by_cases hs : r.likeStateless
  · left
    simp [hs]
  · simp only [(by simp [hs] : r.likeStateless = false), Bool.false_eq_true,
      if_false]
    cases hlk : alookup (⟨p, gap.writerId⟩ : GUID) r.matchedWriters with
    | none => left; rfl
    | some wp =>
      dsimp only
      by_cases h1 : gap.gapStart ≤ 0
      · left; simp [h1]
      · by_cases h2 : gap.gapList.base ≤ 0
        · left; simp [h1, h2]
        · right
          rw [if_neg h1, if_neg h2]
          refine ⟨wp, _, rfl, ?_, ?_, rfl, rfl⟩
          · intro k hk
            rw [foldl_set_irrelevant_accountedB,
              accountedB_irrelevant_changes_range, hk]
            simp
          · have h3 := (foldl_set_irrelevant_fields gap.gapList.set
              (wp.irrelevant_changes_range gap.gapStart gap.gapList.base)).2.2.1
            rw [h3]
            rfl

theorem preemptiveStep_accountedB (eid : EntityId) (wp : RtpsWriterProxy)
    (k : Int) :
    ((preemptiveStep eid wp).1).accountedB k = wp.accountedB k := by
  unfold preemptiveStep
  by_cases h : wp.no_changes_received
  · simp only [h, if_true]
    rfl
  · simp only [h, Bool.false_eq_true, if_false]

theorem preemptiveStep_counter (eid : EntityId) (wp : RtpsWriterProxy) :
    ((preemptiveStep eid wp).1).sentAckNackCount =
      (if wp.no_changes_received then wp.sentAckNackCount + 1
        else wp.sentAckNackCount) := by
  unfold preemptiveStep
  by_cases h : wp.no_changes_received
  · simp only [h, if_true]
    rfl
  · simp only [h, Bool.false_eq_true, if_false]

theorem preemptiveStep_counts_mem (eid : EntityId) (wp : RtpsWriterProxy)
    (s : ReaderSubmessage) (hs : s ∈ (preemptiveStep eid wp).2) :
    s.countOf = wp.sentAckNackCount := by
  unfold preemptiveStep at hs
  by_cases h : wp.no_changes_received
  · simp only [h, if_true] at hs
    rcases List.mem_singleton.mp hs with rfl
    rfl
  · simp only [h, Bool.false_eq_true, if_false] at hs
    simp at hs

/-- What `send_preemptive_acknacks` does to the reader state: the topic
cache is untouched; stateless readers do nothing; otherwise each proxy is
stepped through `preemptiveStep` (which only draws acknack counts). -/
theorem send_preemptive_wm (r : Reader) :
    ((r.send_preemptive_acknacks).1.topicCache = r.topicCache) ∧
    (r.likeStateless = true → (r.send_preemptive_acknacks).1 = r) ∧
    (r.likeStateless = false → ∀ g,
      alookup g (r.send_preemptive_acknacks).1.matchedWriters =
        (alookup g r.matchedWriters).map
          (fun wp => (preemptiveStep r.myGuid.entityId wp).1)) := by
  unfold Reader.send_preemptive_acknacks
  by_cases hs : r.likeStateless
  · rw [if_pos hs]
    refine ⟨rfl, fun _ => rfl, fun hcon => ?_⟩
    rw [hcon] at hs
    exact Bool.noConfusion hs
  · have hsF : r.likeStateless = false := by simp [hs]
    rw [if_neg hs]
    refine ⟨rfl, fun hcon => ?_, fun _ g => ?_⟩
    · rw [hcon] at hsF
      exact Bool.noConfusion hsF
    · show alookup g ((r.matchedWriters.map
        (fun q => (q.1, preemptiveStep r.myGuid.entityId q.2))).map
          (fun q => (q.1, q.2.1))) = _
      rw [List.map_map]
      have h := alookup_map_value g
        (fun wp => (preemptiveStep r.myGuid.entityId wp).1) r.matchedWriters
      simpa [Function.comp] using h

/-- One Reader event preserves the watermark invariant. -/
theorem stepEvent_inv (r : Reader) (ev : ReaderEvent)
    (hinv : watermarkInv r) : watermarkInv (r.stepEvent ev) := by
  cases ev with
  | dataMsg dd ts st g sn =>
    obtain ⟨hother, hself⟩ := process_received_data_wm r dd ts st g sn
    intro g2 wq2 hlook2
    by_cases hne : g2 = g
    · subst hne
      rcases hself with ⟨hl, hw⟩ | ⟨wq, hlk, hlk2, hw⟩
      · rw [show (r.stepEvent (ReaderEvent.dataMsg dd ts st g2 sn)) =
          r.process_received_data dd ts st g2 sn from rfl] at hlook2 ⊢
        rw [hl] at hlook2
        rw [hw]
        exact hinv g2 wq2 hlook2
      · rw [show (r.stepEvent (ReaderEvent.dataMsg dd ts st g2 sn)) =
          r.process_received_data dd ts st g2 sn from rfl] at hlook2 ⊢
        rw [hlk2] at hlook2
        injection hlook2 with hlook2
        rw [hw, ← hlook2]
        have h1 := hinv g2 wq hlk
        have h2 : wq.all_ackable_before ≤
            (wq.received_changes_add sn ts).all_ackable_before := by
          apply aab_mono
          intro k hk
          rw [accountedB_received_changes_add, hk]
          simp
        omega
    · obtain ⟨hl, hw⟩ := hother g2 hne
      rw [show (r.stepEvent (ReaderEvent.dataMsg dd ts st g sn)) =
        r.process_received_data dd ts st g sn from rfl] at hlook2 ⊢
      rw [hl] at hlook2
      rw [hw]
      exact hinv g2 wq2 hlook2
  | heartbeatMsg p hb f =>
    by_cases hacc : hbAccepted r p hb = true
    · have hg : ¬ (r.reliability = Reliability.BestEffort ∨
          r.likeStateless = true) := by
        unfold hbAccepted at hacc
        intro hcon
        rw [if_pos hcon] at hacc
        exact Bool.noConfusion hacc
      unfold hbAccepted at hacc
      rw [if_neg hg] at hacc
      cases hlook : alookup (⟨p, hb.writerId⟩ : GUID) r.matchedWriters with
      | none => rw [hlook] at hacc; simp at hacc
      | some wp =>
        rw [hlook] at hacc
        dsimp only at hacc
        simp only [decide_eq_true_eq] at hacc
        have heq := handle_heartbeat_accepted_eq r p hb f wp hg hlook hacc
        obtain ⟨wpX, hXacc, _, hXmw, hXtc⟩ :=
          heartbeatResponse_wm r ⟨p, hb.writerId⟩ hb f wp
        intro g2 wq2 hlook2
        rw [show (r.stepEvent (ReaderEvent.heartbeatMsg p hb f)) =
          (r.handle_heartbeat_msg p hb f).1 from rfl, heq] at hlook2 ⊢
        by_cases hne : g2 = (⟨p, hb.writerId⟩ : GUID)
        · subst hne
          rw [hXmw, alookup_aupdate_self, hlook] at hlook2
          injection hlook2 with hlook2
          dsimp only at hlook2
          rw [hXtc, mark_watermark_self, ← hlook2]
          have haabX : (hbProxy wp hb).all_ackable_before =
              wpX.all_ackable_before :=
            aab_congr _ _ (fun k => (hXacc k).symm)
          have h1 := hinv _ wp hlook
          have h2 : wp.all_ackable_before ≤
              (hbProxy wp hb).all_ackable_before :=
            aab_mono _ _ (fun k => hbProxy_accountedB_mono wp hb k)
          omega
        · rw [hXmw, alookup_aupdate_ne _ g2 _ hne] at hlook2
          rw [hXtc, mark_watermark_ne _ _ _ _ hne]
          exact hinv g2 wq2 hlook2
    · rw [Bool.not_eq_true] at hacc
      have hst : (r.stepEvent (ReaderEvent.heartbeatMsg p hb f)) = r :=
        handle_heartbeat_not_accepted r p hb f hacc
      rw [hst]
      exact hinv
  | gapMsg p gap =>
    rcases handle_gap_wm r p gap with heq | ⟨wp, wp2, hlk, hmono, _, hmw, htc⟩
    · rw [show (r.stepEvent (ReaderEvent.gapMsg p gap)) =
        r.handle_gap_msg p gap from rfl, heq]
      exact hinv
    · intro g2 wq2 hlook2
      rw [show (r.stepEvent (ReaderEvent.gapMsg p gap)) =
        r.handle_gap_msg p gap from rfl] at hlook2 ⊢
      by_cases hne : g2 = (⟨p, gap.writerId⟩ : GUID)
      · subst hne
        rw [hmw, alookup_aupdate_self, hlk] at hlook2
        injection hlook2 with hlook2
        dsimp only at hlook2
        rw [htc, mark_watermark_self, ← hlook2]
        have h1 := hinv _ wp hlk
        have h2 : wp.all_ackable_before ≤ wp2.all_ackable_before :=
          aab_mono _ _ hmono
        omega
      · rw [hmw, alookup_aupdate_ne _ g2 _ hne] at hlook2
        rw [htc, mark_watermark_ne _ _ _ _ hne]
        exact hinv g2 wq2 hlook2
  | preemptiveAckNack =>
    obtain ⟨htc, hstl, hmap⟩ := send_preemptive_wm r
    by_cases hs : r.likeStateless
    · rw [show (r.stepEvent ReaderEvent.preemptiveAckNack) =
        (r.send_preemptive_acknacks).1 from rfl, hstl (by simp [hs])]
      exact hinv
    · intro g2 wq2 hlook2
      rw [show (r.stepEvent ReaderEvent.preemptiveAckNack) =
        (r.send_preemptive_acknacks).1 from rfl] at hlook2 ⊢
      rw [hmap (by simp [hs]) g2] at hlook2
      cases hlk : alookup g2 r.matchedWriters with
      | none => rw [hlk] at hlook2; exact Option.noConfusion hlook2
      | some wp0 =>
        rw [hlk] at hlook2
        injection hlook2 with hlook2
        dsimp only at hlook2
        rw [htc, ← hlook2]
        have haab : wp0.all_ackable_before =
            ((preemptiveStep r.myGuid.entityId wp0).1).all_ackable_before :=
          aab_congr _ _ (fun k => (preemptiveStep_accountedB _ wp0 k).symm)
        have := hinv g2 wp0 hlk
        omega

/-- One Reader event never lowers any watermark. -/
theorem stepEvent_wm_mono (r : Reader) (ev : ReaderEvent) (g2 : GUID) :
    r.topicCache.watermarkOf g2 ≤
      (r.stepEvent ev).topicCache.watermarkOf g2 := by
  cases ev with
  | dataMsg dd ts st g sn =>
    obtain ⟨hother, hself⟩ := process_received_data_wm r dd ts st g sn
    show r.topicCache.watermarkOf g2 ≤
      (r.process_received_data dd ts st g sn).topicCache.watermarkOf g2
    by_cases hne : g2 = g
    · subst hne
      rcases hself with ⟨_, hw⟩ | ⟨wq, _, _, hw⟩
      · rw [hw]
      · rw [hw]
        exact le_max_left _ _
    · rw [(hother g2 hne).2]
  | heartbeatMsg p hb f =>
    show r.topicCache.watermarkOf g2 ≤
      (r.handle_heartbeat_msg p hb f).1.topicCache.watermarkOf g2
    by_cases hacc : hbAccepted r p hb = true
    · have hg : ¬ (r.reliability = Reliability.BestEffort ∨
          r.likeStateless = true) := by
        unfold hbAccepted at hacc
        intro hcon
        rw [if_pos hcon] at hacc
        exact Bool.noConfusion hacc
      unfold hbAccepted at hacc
      rw [if_neg hg] at hacc
      cases hlook : alookup (⟨p, hb.writerId⟩ : GUID) r.matchedWriters with
      | none => rw [hlook] at hacc; simp at hacc
      | some wp =>
        rw [hlook] at hacc
        dsimp only at hacc
        simp only [decide_eq_true_eq] at hacc
        rw [handle_heartbeat_accepted_eq r p hb f wp hg hlook hacc]
        obtain ⟨wpX, _, _, _, hXtc⟩ :=
          heartbeatResponse_wm r ⟨p, hb.writerId⟩ hb f wp
        rw [hXtc]
        by_cases hne : g2 = (⟨p, hb.writerId⟩ : GUID)
        · subst hne
          rw [mark_watermark_self]
          exact le_max_left _ _
        · rw [mark_watermark_ne _ _ _ _ hne]
    · rw [Bool.not_eq_true] at hacc
      rw [handle_heartbeat_not_accepted r p hb f hacc]
  | gapMsg p gap =>
    show r.topicCache.watermarkOf g2 ≤
      (r.handle_gap_msg p gap).topicCache.watermarkOf g2
    rcases handle_gap_wm r p gap with heq | ⟨wp, wp2, _, _, _, _, htc⟩
    · rw [heq]
    · rw [htc]
      by_cases hne : g2 = (⟨p, gap.writerId⟩ : GUID)
      · subst hne
        rw [mark_watermark_self]
        exact le_max_left _ _
      · rw [mark_watermark_ne _ _ _ _ hne]
  | preemptiveAckNack =>
    obtain ⟨htc, _, _⟩ := send_preemptive_wm r
    show r.topicCache.watermarkOf g2 ≤
      (r.send_preemptive_acknacks).1.topicCache.watermarkOf g2
    rw [htc]

/-- C8: the watermark map is driven only through
`mark_reliably_received_before`, which raises the watermark to
`max(current, sn)` and reports whether it advanced; along any run of Reader
events (DATA, HEARTBEAT, GAP, preemptive ACKNACK — the operations of the
embedded Reader that touch the watermarks), every matched writer's
watermark stays at most its proxy's `all_ackable_before()` and never
decreases. -/
theorem claim_C8 (tc : TopicCache) (g : GUID) (sn : Int) (r : Reader)
    (evs : List ReaderEvent) (g2 : GUID) :
    ((tc.mark_reliably_received_before g sn).1.watermarkOf g =
        max (tc.watermarkOf g) sn ∧
      ((tc.mark_reliably_received_before g sn).2 = true ↔
        tc.watermarkOf g < max (tc.watermarkOf g) sn)) ∧
    (watermarkInv r → watermarkInv (r.runEvents evs)) ∧
    (r.topicCache.watermarkOf g2 ≤
      (r.runEvents evs).topicCache.watermarkOf g2) := by
  refine ⟨⟨mark_watermark_self tc g sn, ?_⟩, ?_, ?_⟩
  · unfold TopicCache.mark_reliably_received_before
    dsimp only
    constructor
    · intro h
      simpa using h
    · intro h
      simpa using h
  · intro hinv
    induction evs generalizing r with
    | nil => exact hinv
    | cons ev rest ih =>
      exact ih (r.stepEvent ev) (stepEvent_inv r ev hinv)
  · induction evs generalizing r with
    | nil => exact le_refl _
    | cons ev rest ih =>
      calc r.topicCache.watermarkOf g2
          ≤ (r.stepEvent ev).topicCache.watermarkOf g2 :=
            stepEvent_wm_mono r ev g2
        _ ≤ ((r.stepEvent ev).runEvents rest).topicCache.watermarkOf g2 :=
            ih (r.stepEvent ev)

/-- Witness for C8: a concrete one-proxy reader (watermarks empty, so the
invariant holds) runs a GAP event; the invariant is preserved and the
watermark does not decrease. -/
theorem claim_C8_witness :
    ((TopicCache.mk ⟨none⟩ ⟨[]⟩ []).mark_reliably_received_before
        ⟨7, ⟨1, 2⟩⟩ 3).1.watermarkOf ⟨7, ⟨1, 2⟩⟩ =
      max ((TopicCache.mk ⟨none⟩ ⟨[]⟩ []).watermarkOf ⟨7, ⟨1, 2⟩⟩) 3 ∧
    watermarkInv ((Reader.mk false (.Reliable 100) ⟨9, ⟨5, 6⟩⟩
      ⟨⟨none⟩, ⟨[]⟩, []⟩ [] [(⟨7, ⟨1, 2⟩⟩,
        RtpsWriterProxy.new ⟨7, ⟨1, 2⟩⟩)]).runEvents
      [ReaderEvent.gapMsg 7 ⟨⟨5, 6⟩, ⟨1, 2⟩, 1, ⟨3, [4]⟩⟩]) := by
  have h := claim_C8 (TopicCache.mk ⟨none⟩ ⟨[]⟩ []) ⟨7, ⟨1, 2⟩⟩ 3
    (Reader.mk false (.Reliable 100) ⟨9, ⟨5, 6⟩⟩ ⟨⟨none⟩, ⟨[]⟩, []⟩ []
      [(⟨7, ⟨1, 2⟩⟩, RtpsWriterProxy.new ⟨7, ⟨1, 2⟩⟩)])
    [ReaderEvent.gapMsg 7 ⟨⟨5, 6⟩, ⟨1, 2⟩, 1, ⟨3, [4]⟩⟩] ⟨7, ⟨1, 2⟩⟩
  refine ⟨h.1.1, h.2.1 ?_⟩
  intro g wp hlk
  have h1 := aab_pos wp
  have h0 : (Reader.mk false (.Reliable 100) ⟨9, ⟨5, 6⟩⟩ ⟨⟨none⟩, ⟨[]⟩, []⟩ []
      [(⟨7, ⟨1, 2⟩⟩, RtpsWriterProxy.new ⟨7, ⟨1, 2⟩⟩)]
      : Reader).topicCache.watermarkOf g = 0 := rfl
  rw [h0]
  omega

/-! ### Claim C5 -/

/-- Inserting at a key not yet present grows the cache by exactly one
entry. -/
theorem sortedInsert_fresh_length (k : Nat) (v : CacheChange) :
    ∀ l : List (Nat × CacheChange), k ∉ l.map Prod.fst →
      (sortedInsert k v l).length = l.length + 1 := by
  intro l
  induction l with
  | nil => intro _; rfl
  | cons p rest ih =>
    intro hmem
    have hk1 : k ≠ p.1 := by
      intro he
      exact hmem (by simp [he])
    have hkrest : k ∉ rest.map Prod.fst := fun h => hmem (by simp [h])
    by_cases hlt : k < p.1
    · simp [sortedInsert, hlt]
    · simp [sortedInsert, hlt, hk1, ih hkrest]

/-- The keys after `sortedInsert` are the new key plus the old keys. -/
theorem sortedInsert_keys (k : Nat) (v : CacheChange) :
    ∀ (l : List (Nat × CacheChange)) (x : Nat),
      x ∈ (sortedInsert k v l).map Prod.fst ↔ x = k ∨ x ∈ l.map Prod.fst := by
  intro l
  induction l with
  | nil => intro x; simp [sortedInsert]
  | cons p rest ih =>
    intro x
    by_cases hlt : k < p.1
    · simp [sortedInsert, hlt]
    · by_cases heq : k = p.1
      · subst heq
        simp only [sortedInsert, hlt, if_false, eq_self_iff_true, if_true,
          List.map_cons, List.mem_cons]
        tauto
      · simp only [sortedInsert, hlt, if_false, if_neg heq, List.map_cons,
          List.mem_cons, ih]
        tauto

/-- The duplicate-drop path of `process_received_data`: on a stateful reader
with a matched proxy that already accounts for the sequence number, and a
reader entity other than the SPDP participant reader, nothing changes. -/
theorem process_received_data_drop (r1 : Reader) (g : GUID) (sn : Int)
    (dd : DDSData) (st : Option Nat) (ts : Nat) (wq : RtpsWriterProxy)
    (hs1 : r1.likeStateless = false)
    (hlook1 : alookup g r1.matchedWriters = some wq)
    (hig : wq.should_ignore_change sn = true)
    (hne : r1.myGuid.entityId ≠ EntityId.SPDP_BUILTIN_PARTICIPANT_READER) :
    r1.process_received_data dd ts st g sn = r1 := by
  unfold Reader.process_received_data
  rw [hs1]
  simp only [Bool.not_false, if_true, hlook1]
  rw [if_pos ⟨hig, hne⟩]

/-- The accept path of `process_received_data` on a stateful reader with a
matched proxy: the change is recorded on the proxy and inserted into the
cache; the other reader fields are untouched. -/
theorem process_received_data_accept (r1 : Reader) (g : GUID) (sn : Int)
    (dd : DDSData) (st : Option Nat) (ts : Nat) (wq : RtpsWriterProxy)
    (hs1 : r1.likeStateless = false)
    (hlook1 : alookup g r1.matchedWriters = some wq)
    (hcond : ¬ (wq.should_ignore_change sn = true ∧
      r1.myGuid.entityId ≠ EntityId.SPDP_BUILTIN_PARTICIPANT_READER)) :
    (r1.process_received_data dd ts st g sn).topicCache.historyCache.changes =
        sortedInsert ts ⟨g, sn, st, dd⟩ r1.topicCache.historyCache.changes ∧
      (r1.process_received_data dd ts st g sn).likeStateless = r1.likeStateless ∧
      (r1.process_received_data dd ts st g sn).myGuid = r1.myGuid ∧
      alookup g (r1.process_received_data dd ts st g sn).matchedWriters =
        some (wq.received_changes_add sn ts) := by
  unfold Reader.process_received_data
  rw [hs1]
  simp only [Bool.not_false, if_true, hlook1]
  rw [if_neg hcond]
  unfold Reader.make_cache_change
  refine ⟨?_, rfl, rfl, ?_⟩
  · cases alookup g (aupdate g (fun w => w.received_changes_add sn ts)
        r1.matchedWriters) with
    | none => simp [hs1, TopicCache.add_change, DDSHistoryCache.add_change]
    | some wpz =>
      simp [hs1, TopicCache.add_change, DDSHistoryCache.add_change,
        TopicCache.mark_reliably_received_before]
  · show alookup g (aupdate g _ r1.matchedWriters) = _
    rw [alookup_aupdate_self, hlook1]
    rfl

/-- C5: on a stateful reader with a matched proxy, processing the same DATA
(same writer GUID and writer sequence number, fresh reception timestamps)
twice inserts exactly one `CacheChange`: the first call inserts one entry,
and the second is dropped without any state change — unless the reader is
the SPDP built-in participant reader, in which case the duplicate is
accepted and inserted again. -/
theorem claim_C5 (r : Reader) (g : GUID) (sn : Int) (dd dd2 : DDSData)
    (st st2 : Option Nat) (ts1 ts2 : Nat) (wp : RtpsWriterProxy)
    (hs : r.likeStateless = false)
    (hlook : alookup g r.matchedWriters = some wp)
    (hfresh : wp.should_ignore_change sn = false)
    (ht1 : ts1 ∉ r.topicCache.historyCache.changes.map Prod.fst)
    (ht2 : ts2 ∉ r.topicCache.historyCache.changes.map Prod.fst)
    (hnet : ts1 ≠ ts2) :
    ((r.process_received_data dd ts1 st g sn).topicCache.historyCache.changes.length
        = r.topicCache.historyCache.changes.length + 1) ∧
      (r.myGuid.entityId ≠ EntityId.SPDP_BUILTIN_PARTICIPANT_READER →
        ((r.process_received_data dd ts1 st g sn).process_received_data dd2 ts2
            st2 g sn) = r.process_received_data dd ts1 st g sn) ∧
      (r.myGuid.entityId = EntityId.SPDP_BUILTIN_PARTICIPANT_READER →
        ((r.process_received_data dd ts1 st g sn).process_received_data dd2 ts2
              st2 g sn).topicCache.historyCache.changes.length
          = r.topicCache.historyCache.changes.length + 2) := by
  have hcond1 : ¬ (wp.should_ignore_change sn = true ∧
      r.myGuid.entityId ≠ EntityId.SPDP_BUILTIN_PARTICIPANT_READER) := by
    intro hcon
    rw [hfresh] at hcon
    exact Bool.noConfusion hcon.1
  obtain ⟨hcache1, hstateless1, hguid1, hlook1⟩ :=
    process_received_data_accept r g sn dd st ts1 wp hs hlook hcond1
  rw [hs] at hstateless1
  have hlen1 :
      (r.process_received_data dd ts1 st g sn).topicCache.historyCache.changes.length
        = r.topicCache.historyCache.changes.length + 1 := by
    rw [hcache1]
    exact sortedInsert_fresh_length ts1 _ _ ht1
  have hignore1 :
      (wp.received_changes_add sn ts1).should_ignore_change sn = true := by
    show (wp.received_changes_add sn ts1).accountedB sn = true
    rw [accountedB_received_changes_add]
    simp
  refine ⟨hlen1, ?_, ?_⟩
  · intro hnespdp
    exact process_received_data_drop _ g sn dd2 st2 ts2 _ hstateless1 hlook1
      hignore1 (by rw [hguid1]; exact hnespdp)
  · intro hspdp
    obtain ⟨hcache2, _, _, _⟩ :=
      process_received_data_accept _ g sn dd2 st2 ts2 _ hstateless1 hlook1
        (by rw [hguid1]; intro hcon; exact hcon.2 hspdp)
    have hts2 : ts2 ∉
        (r.process_received_data dd ts1 st g sn).topicCache.historyCache.changes.map
          Prod.fst := by
      rw [hcache1, sortedInsert_keys]
      rintro (rfl | h)
      · exact hnet rfl
      · exact ht2 h
    rw [hcache2, sortedInsert_fresh_length ts2 _ _ hts2, hlen1]

/-- Witness for C5: a concrete stateful reader ingesting writer sequence
number 1 twice at timestamps 10 and 11 stores exactly one change. -/
theorem claim_C5_witness :
    (((Reader.mk false (.Reliable 100) ⟨9, ⟨5, 6⟩⟩ ⟨⟨none⟩, ⟨[]⟩, []⟩ []
        [(⟨7, ⟨1, 2⟩⟩, RtpsWriterProxy.new ⟨7, ⟨1, 2⟩⟩)]).process_received_data
          (DDSData.new [3]) 10 none ⟨7, ⟨1, 2⟩⟩ 1).process_received_data
          (DDSData.new [3]) 11 none ⟨7, ⟨1, 2⟩⟩ 1) =
      ((Reader.mk false (.Reliable 100) ⟨9, ⟨5, 6⟩⟩ ⟨⟨none⟩, ⟨[]⟩, []⟩ []
        [(⟨7, ⟨1, 2⟩⟩, RtpsWriterProxy.new ⟨7, ⟨1, 2⟩⟩)]).process_received_data
          (DDSData.new [3]) 10 none ⟨7, ⟨1, 2⟩⟩ 1) := by
  exact (claim_C5 (Reader.mk false (.Reliable 100) ⟨9, ⟨5, 6⟩⟩ ⟨⟨none⟩, ⟨[]⟩, []⟩ []
      [(⟨7, ⟨1, 2⟩⟩, RtpsWriterProxy.new ⟨7, ⟨1, 2⟩⟩)]) ⟨7, ⟨1, 2⟩⟩ 1
      (DDSData.new [3]) (DDSData.new [3]) none none 10 11
      (RtpsWriterProxy.new ⟨7, ⟨1, 2⟩⟩) rfl (by decide) (by decide) (by decide)
      (by decide) (by decide)).2.1 (by decide)

/-! ### Claim C7 -/

/-- The core of the C7 mapping on `sortedInsert`: replacing at a key that is
present keeps the length and makes the lookup return the new change. -/
theorem sortedInsert_replace (k : Nat) (v : CacheChange) :
    ∀ (l : List (Nat × CacheChange)), l.Pairwise (fun a b => a.1 < b.1) →
      k ∈ l.map Prod.fst →
      (sortedInsert k v l).length = l.length ∧
        alookup k (sortedInsert k v l) = some v := by
  intro l
  induction l with
  | nil => intro _ hmem; simp at hmem
  | cons p rest ih =>
    intro hsorted hmem
    obtain ⟨k1, v1⟩ := p
    rcases List.pairwise_cons.mp hsorted with ⟨hhead, htail⟩
    by_cases hk : k = k1
    · subst hk
      have hlt : ¬ k < k := lt_irrefl k
      simp [sortedInsert, hlt, alookup]
    · have hkrest : k ∈ rest.map Prod.fst := by
        simpa [hk, Ne.symm hk] using hmem
      have hk1k : k1 < k := by
        rcases List.mem_map.mp hkrest with ⟨q, hq, hqk⟩
        have := hhead q hq
        omega
      have hnotlt : ¬ k < k1 := by omega
      have ⟨ihlen, ihlook⟩ := ih htail hkrest
      constructor
      · simp [sortedInsert, hnotlt, hk, ihlen]
      · have hne : k1 ≠ k := Ne.symm hk
        simp [sortedInsert, hnotlt, hk, alookup, hne, ihlook]

/-- C7: `data_to_dds_data` maps (payload present, Data flag, Key flag) as
follows: (yes, true, false) → alive sample with the payload;
(yes, false, true) → dispose-by-key with the kind derived from inline-QoS
`status_info` (default `NOT_ALIVE_DISPOSED`); (no, false, false) →
dispose-by-key-hash when an inline `key_hash` is present, otherwise an
error; (yes, true, true), (yes, false, false), and payload-absent
combinations with a Data or Key flag are errors (the submessage is
dropped). -/
theorem claim_C7 (rid wid : EntityId) (sn : Int) (iq : Option InlineQosParams)
    (p : SerializedPayload) :
    (Reader.data_to_dds_data ⟨rid, wid, sn, iq, some p⟩ true false =
        Except.ok (DDSData.new p)) ∧
    (Reader.data_to_dds_data ⟨rid, wid, sn, iq, some p⟩ false true =
        Except.ok (DDSData.disposedByKey (deduce_change_kind iq) p)) ∧
    (∀ h, iq.bind (fun q => q.keyHash) = some h →
        Reader.data_to_dds_data ⟨rid, wid, sn, iq, none⟩ false false =
          Except.ok (DDSData.disposedByKeyHash (deduce_change_kind iq) h)) ∧
    (iq.bind (fun q => q.keyHash) = none →
        ∃ e, Reader.data_to_dds_data ⟨rid, wid, sn, iq, none⟩ false false =
          Except.error e) ∧
    (∃ e, Reader.data_to_dds_data ⟨rid, wid, sn, iq, some p⟩ true true =
        Except.error e) ∧
    (∃ e, Reader.data_to_dds_data ⟨rid, wid, sn, iq, some p⟩ false false =
        Except.error e) ∧
    (∀ kf, ∃ e, Reader.data_to_dds_data ⟨rid, wid, sn, iq, none⟩ true kf =
        Except.error e) ∧
    (∃ e, Reader.data_to_dds_data ⟨rid, wid, sn, iq, none⟩ false true =
        Except.error e) ∧
    (∀ q si, iq = some q → q.statusInfo = some si →
        deduce_change_kind iq = si) ∧
    (iq.bind (fun q => q.statusInfo) = none →
        deduce_change_kind iq = ChangeKind.NOT_ALIVE_DISPOSED) := by
  refine ⟨rfl, rfl, ?_, ?_, ⟨_, rfl⟩, ⟨_, rfl⟩, ?_, ⟨_, rfl⟩, ?_, ?_⟩
  · intro h hh
    simp [Reader.data_to_dds_data, hh]
  · intro hh
    refine ⟨"DATA with no contents", ?_⟩
    simp [Reader.data_to_dds_data, hh]
  · intro kf
    cases kf <;> exact ⟨_, rfl⟩
  · intro q si hq hsi
    simp [deduce_change_kind, hq, hsi]
  · intro hnone
    simp [deduce_change_kind, hnone]

/-- Witness for C7 at concrete inputs: a key-hash-only DATA with
`status_info` absent becomes a dispose-by-key-hash with the default kind. -/
theorem claim_C7_witness :
    Reader.data_to_dds_data ⟨⟨1, 2⟩, ⟨3, 4⟩, 5, some ⟨some 77, none⟩, none⟩
        false false =
      Except.ok (DDSData.disposedByKeyHash ChangeKind.NOT_ALIVE_DISPOSED 77) := by
  have h := claim_C7 ⟨1, 2⟩ ⟨3, 4⟩ 5 (some ⟨some 77, none⟩) []
  have hkind : deduce_change_kind (some ⟨some 77, none⟩) =
      ChangeKind.NOT_ALIVE_DISPOSED := h.2.2.2.2.2.2.2.2.2 rfl
  have := h.2.2.1 77 rfl
  rwa [hkind] at this

/-! ### Claim C10 -/

/-- C10: `DDSHistoryCache::add_change` at a timestamp already present in the
cache silently replaces the stored change — the old change is lost, the
entry count does not grow, and no failure is returned to the caller (the
operation is total; only an error is logged). -/
theorem claim_C10 (hc : DDSHistoryCache) (k : Nat) (oldChange newChange : CacheChange)
    (hsorted : hc.changes.Pairwise (fun a b => a.1 < b.1))
    (hmem : hc.get_change k = some oldChange) :
    (hc.add_change k newChange).changes.length = hc.changes.length ∧
      (hc.add_change k newChange).get_change k = some newChange := by
  have hkeys : k ∈ hc.changes.map Prod.fst := alookup_mem_keys k oldChange _ hmem
  have := sortedInsert_replace k newChange hc.changes hsorted hkeys
  exact ⟨this.1, this.2⟩

/-- Witness for C10: replacing the single entry of a one-entry cache. -/
theorem claim_C10_witness :
    ((DDSHistoryCache.mk [(3, ⟨⟨0, ⟨0, 0⟩⟩, 1, none, DDSData.new [0]⟩)]).add_change 3
          ⟨⟨0, ⟨0, 0⟩⟩, 2, none, DDSData.new [1]⟩).changes.length = 1 ∧
      ((DDSHistoryCache.mk [(3, ⟨⟨0, ⟨0, 0⟩⟩, 1, none, DDSData.new [0]⟩)]).add_change 3
          ⟨⟨0, ⟨0, 0⟩⟩, 2, none, DDSData.new [1]⟩).get_change 3 =
        some ⟨⟨0, ⟨0, 0⟩⟩, 2, none, DDSData.new [1]⟩ := by
  have := claim_C10 (DDSHistoryCache.mk [(3, ⟨⟨0, ⟨0, 0⟩⟩, 1, none, DDSData.new [0]⟩)])
    3 ⟨⟨0, ⟨0, 0⟩⟩, 1, none, DDSData.new [0]⟩ ⟨⟨0, ⟨0, 0⟩⟩, 2, none, DDSData.new [1]⟩
    (by decide) (by decide)
  simpa using this


/-! ### Claim C9 -/

/-- An `intRange` at equal endpoints is empty. -/
theorem intRange_self (c : Int) : intRange c c = [] := by
  unfold intRange
  simp

/-- An `intRange` peels off its lower endpoint when non-empty. -/
theorem intRange_cons (lo hi : Int) (h : lo < hi) :
    intRange lo hi = lo :: intRange (lo + 1) hi := by
  unfold intRange
  have h1 : (hi - lo).toNat = (hi - (lo + 1)).toNat + 1 := by omega
  rw [h1, List.range_succ_eq_map, List.map_cons, List.map_map]
  have h2 : ((fun i : Nat => lo + (i : Int)) ∘ Nat.succ) =
      (fun i : Nat => lo + 1 + (i : Int)) := by
    funext i
    simp only [Function.comp]
    push_cast
    ring
  rw [h2]
  simp

theorem intRange_append_aux :
    ∀ (n : Nat) (lo mid hi : Int), (mid - lo).toNat = n → lo ≤ mid →
      mid ≤ hi → intRange lo mid ++ intRange mid hi = intRange lo hi := by
  intro n
  induction n with
  | zero =>
    intro lo mid hi hn h1 h2
    have hlm : lo = mid := by omega
    subst hlm
    rw [intRange_self]
    rfl
  | succ k ih =>
    intro lo mid hi hn h1 h2
    have hlt : lo < mid := by omega
    rw [intRange_cons lo mid hlt, intRange_cons lo hi (by omega),
      List.cons_append, ih (lo + 1) mid hi (by omega) (by omega) h2]

/-- Adjacent `intRange`s concatenate. -/
theorem intRange_append (lo mid hi : Int) (h1 : lo ≤ mid) (h2 : mid ≤ hi) :
    intRange lo mid ++ intRange mid hi = intRange lo hi :=
  intRange_append_aux (mid - lo).toNat lo mid hi rfl h1 h2

/-- When every listed sequence number has missing fragments, the NACKFRAG
counts of `buildNackFrags` are exactly the drawn counter range, in draw
order. -/
theorem buildNackFrags_counts_eq (r : Reader) (g : GUID)
    (rid wid : EntityId) :
    ∀ (l : List Int) (c : Int),
      (∀ sn ∈ l, r.missing_frags_for g sn ≠ []) →
      (buildNackFrags r g rid wid l c).1.map ReaderSubmessage.countOf =
        intRange c (c + l.length) := by
  intro l
  induction l with
  | nil =>
    intro c _
    simp [buildNackFrags, intRange_self]
  | cons sn rest ih =>
    intro c h
    have hne := h sn (by simp)
    unfold buildNackFrags
    cases hmf : r.missing_frags_for g sn with
    | nil => exact absurd hmf hne
    | cons fr frs =>
      rw [List.map_cons, ih (c + 1) (fun x hx => h x (by simp [hx]))]
      have hlen : c + (((sn :: rest).length : Nat) : Int) =
          (c + 1) + ((rest.length : Nat) : Int) := by
        simp only [List.length_cons]
        push_cast
        ring
      rw [hlen, intRange_cons c ((c + 1) + ((rest.length : Nat) : Int))
        (by omega)]
      rfl

/-- `process_received_data` never changes any proxy's acknack counter. -/
theorem process_received_data_counter (r : Reader) (dd : DDSData) (ts : Nat)
    (st : Option Nat) (gw : GUID) (sn : Int) (g : GUID) :
    (r.process_received_data dd ts st gw sn).counterOf g = r.counterOf g := by
  obtain ⟨hne, hself⟩ := process_received_data_wm r dd ts st gw sn
  by_cases hg : g = gw
  · subst hg
    rcases hself with ⟨h1, _⟩ | ⟨wq, hpre, hpost, _⟩
    · unfold Reader.counterOf
      rw [h1]
    · unfold Reader.counterOf
      rw [hpre, hpost]
      rfl
  · unfold Reader.counterOf
    rw [(hne g hg).1]

/-- A non-accepted heartbeat produces no reply and no state change. -/
theorem handle_heartbeat_ignored (r : Reader) (p : Nat) (hb : Heartbeat)
    (f : Bool) (h : hbAccepted r p hb = false) :
    r.handle_heartbeat_msg p hb f = (r, [], false) := by
  unfold hbAccepted at h
  unfold Reader.handle_heartbeat_msg
  by_cases hg : r.reliability = Reliability.BestEffort ∨ r.likeStateless = true
  · rw [if_pos hg]
  · rw [if_neg hg] at h
    rw [if_neg hg]
    cases hlook : alookup (⟨p, hb.writerId⟩ : GUID) r.matchedWriters with
    | none => rfl
    | some wp =>
      rw [hlook] at h
      dsimp only at h ⊢
      simp only [decide_eq_false_iff_not, not_lt] at h
      rw [if_pos h]

/-- The counts a preemptive step emits: the stored counter when an ACKNACK
is due, nothing otherwise. -/
theorem preemptiveStep_counts_eq (eid : EntityId) (wp : RtpsWriterProxy) :
    (preemptiveStep eid wp).2.map ReaderSubmessage.countOf =
      (if wp.no_changes_received then [wp.sentAckNackCount] else []) := by
  unfold preemptiveStep
  by_cases h : wp.no_changes_received
  · simp only [h, if_true]
    rfl
  · simp only [h, Bool.false_eq_true, if_false]
    rfl

/-- Counts of a heartbeat response: the stored-back proxy's counter is past
the response's counts, which are — as a multiset — exactly the consumed
counter range (the ACKNACK takes the stored counter, the NACKFRAGs the
consecutively drawn ones). -/
theorem heartbeatResponse_counts (r : Reader) (g : GUID) (hb : Heartbeat)
    (f : Bool) (wp : RtpsWriterProxy) :
    ∃ wpX : RtpsWriterProxy,
      (r.heartbeatResponse g hb f wp).1.matchedWriters =
        aupdate g (fun _ => wpX) r.matchedWriters ∧
      wp.sentAckNackCount ≤ wpX.sentAckNackCount ∧
      ((r.heartbeatResponse g hb f wp).2.1.map ReaderSubmessage.countOf).Perm
        (intRange wp.sentAckNackCount wpX.sentAckNackCount) := by
  have hc0 : (hbProxy wp hb).sentAckNackCount = wp.sentAckNackCount := rfl
  have hfr : ∀ sn ∈ hbPartialSns r g wp hb, r.missing_frags_for g sn ≠ [] := by
    intro sn hsn
    unfold hbPartialSns at hsn
    exact missing_frags_ne_nil_of_partial r g sn (List.mem_filter.mp hsn).2
  have hmap : (hbNackFrags r g wp hb).1.map ReaderSubmessage.countOf =
      intRange (wp.sentAckNackCount + 1)
        (wp.sentAckNackCount + 1 +
          (((hbPartialSns r g wp hb).length : Nat) : Int)) := by
    unfold hbNackFrags
    rw [buildNackFrags_counts_eq r g _ _ _ _ hfr, hc0]
  have hnf2 : (hbNackFrags r g wp hb).2 =
      wp.sentAckNackCount + 1 +
        (((hbPartialSns r g wp hb).length : Nat) : Int) := by
    unfold hbNackFrags
    rw [buildNackFrags_counter, hc0]
  unfold Reader.heartbeatResponse
  by_cases hcond : ((!(hbMissing wp hb).isEmpty) = true ∨ (!f) = true)
  · rw [if_pos hcond]
    refine ⟨hbFinalProxy r g wp hb, rfl, ?_, ?_⟩
    · rw [show (hbFinalProxy r g wp hb).sentAckNackCount =
        (hbNackFrags r g wp hb).2 from rfl, hnf2]
      omega
    · show (((hbNackFrags r g wp hb).1 ++
          [hbAckNack r g wp hb]).map ReaderSubmessage.countOf).Perm
        (intRange wp.sentAckNackCount (hbNackFrags r g wp hb).2)
      rw [List.map_append, hmap, hnf2]
      rw [show [hbAckNack r g wp hb].map ReaderSubmessage.countOf =
        [wp.sentAckNackCount] from rfl]
      rw [intRange_cons wp.sentAckNackCount
        (wp.sentAckNackCount + 1 +
          (((hbPartialSns r g wp hb).length : Nat) : Int)) (by omega)]
      exact List.perm_append_comm
  · rw [if_neg hcond]
    refine ⟨hbProxy wp hb, rfl, le_of_eq hc0.symm, ?_⟩
    show (([] : List ReaderSubmessage).map ReaderSubmessage.countOf).Perm
      (intRange wp.sentAckNackCount (hbProxy wp hb).sentAckNackCount)
    rw [hc0, intRange_self]
    exact List.Perm.nil

/-- The counts one Reader event emits for a writer are a permutation of the
counter range that event consumes, and the counter never decreases. -/
theorem stepEvent_counts (r : Reader) (g : GUID) (ev : ReaderEvent) :
    r.counterOf g ≤ (r.stepEvent ev).counterOf g ∧
    ((r.emissionsFor g ev).map ReaderSubmessage.countOf).Perm
      (intRange (r.counterOf g) ((r.stepEvent ev).counterOf g)) := by
  cases ev with
  | dataMsg dd ts st gw sn =>
    have h := process_received_data_counter r dd ts st gw sn g
    constructor
    · rw [show (r.stepEvent (ReaderEvent.dataMsg dd ts st gw sn)) =
        r.process_received_data dd ts st gw sn from rfl, h]
    · rw [show (r.stepEvent (ReaderEvent.dataMsg dd ts st gw sn)) =
        r.process_received_data dd ts st gw sn from rfl, h, intRange_self]
      exact List.Perm.nil
  | heartbeatMsg p hb f =>
    have hstep : (r.stepEvent (ReaderEvent.heartbeatMsg p hb f)) =
        (r.handle_heartbeat_msg p hb f).1 := rfl
    by_cases hgw : (⟨p, hb.writerId⟩ : GUID) = g
    · have hem : r.emissionsFor g (ReaderEvent.heartbeatMsg p hb f) =
          (r.handle_heartbeat_msg p hb f).2.1 := by
        show (if (⟨p, hb.writerId⟩ : GUID) = g
          then (r.handle_heartbeat_msg p hb f).2.1 else []) = _
        rw [if_pos hgw]
      by_cases hacc : hbAccepted r p hb = true
      · have hg2 : ¬ (r.reliability = Reliability.BestEffort ∨
            r.likeStateless = true) := by
          unfold hbAccepted at hacc
          intro hcon
          rw [if_pos hcon] at hacc
          exact Bool.noConfusion hacc
        unfold hbAccepted at hacc
        rw [if_neg hg2] at hacc
        cases hlook : alookup (⟨p, hb.writerId⟩ : GUID) r.matchedWriters with
        | none => rw [hlook] at hacc; simp at hacc
        | some wp =>
          rw [hlook] at hacc
          dsimp only at hacc
          simp only [decide_eq_true_eq] at hacc
          have heq := handle_heartbeat_accepted_eq r p hb f wp hg2 hlook hacc
          obtain ⟨wpX, hXmw, hXle, hXperm⟩ :=
            heartbeatResponse_counts r (⟨p, hb.writerId⟩ : GUID) hb f wp
          have hpre : r.counterOf g = wp.sentAckNackCount := by
            unfold Reader.counterOf
            rw [← hgw, hlook]
          have hpost :
              (r.stepEvent (ReaderEvent.heartbeatMsg p hb f)).counterOf g =
                wpX.sentAckNackCount := by
            rw [hstep, heq]
            unfold Reader.counterOf
            rw [← hgw, hXmw, alookup_aupdate_self, hlook]
            rfl
          constructor
          · rw [hpre, hpost]
            exact hXle
          · rw [hem, heq, hpre, hpost]
            exact hXperm
      · rw [Bool.not_eq_true] at hacc
        have hig := handle_heartbeat_ignored r p hb f hacc
        constructor
        · rw [hstep, hig]
        · rw [hem, hstep, hig]
          show (([] : List ReaderSubmessage).map ReaderSubmessage.countOf).Perm
            (intRange (r.counterOf g) (r.counterOf g))
          rw [intRange_self]
          exact List.Perm.nil
    · have hem : r.emissionsFor g (ReaderEvent.heartbeatMsg p hb f) = [] := by
        show (if (⟨p, hb.writerId⟩ : GUID) = g
          then (r.handle_heartbeat_msg p hb f).2.1 else []) = []
        rw [if_neg hgw]
      have hcnt :
          (r.stepEvent (ReaderEvent.heartbeatMsg p hb f)).counterOf g =
            r.counterOf g := by
        by_cases hacc : hbAccepted r p hb = true
        · have hg2 : ¬ (r.reliability = Reliability.BestEffort ∨
              r.likeStateless = true) := by
            unfold hbAccepted at hacc
            intro hcon
            rw [if_pos hcon] at hacc
            exact Bool.noConfusion hacc
          unfold hbAccepted at hacc
          rw [if_neg hg2] at hacc
          cases hlook : alookup (⟨p, hb.writerId⟩ : GUID) r.matchedWriters with
          | none => rw [hlook] at hacc; simp at hacc
          | some wp =>
            rw [hlook] at hacc
            dsimp only at hacc
            simp only [decide_eq_true_eq] at hacc
            have heq := handle_heartbeat_accepted_eq r p hb f wp hg2 hlook hacc
            obtain ⟨wpX, hXmw, _, _⟩ :=
              heartbeatResponse_counts r (⟨p, hb.writerId⟩ : GUID) hb f wp
            rw [hstep, heq]
            unfold Reader.counterOf
            rw [hXmw, alookup_aupdate_ne _ g _ (fun h => hgw h.symm)]
        · rw [Bool.not_eq_true] at hacc
          rw [hstep, handle_heartbeat_ignored r p hb f hacc]
      constructor
      · rw [hcnt]
      · rw [hem, hcnt, intRange_self]
        exact List.Perm.nil
  | gapMsg p gap =>
    have hstep : (r.stepEvent (ReaderEvent.gapMsg p gap)) =
        r.handle_gap_msg p gap := rfl
    have hem : r.emissionsFor g (ReaderEvent.gapMsg p gap) = [] := rfl
    have hcnt : (r.handle_gap_msg p gap).counterOf g = r.counterOf g := by
      rcases handle_gap_wm r p gap with heq | ⟨wp, wp2, hlk, _, hc2, hmw, _⟩
      · rw [heq]
      · unfold Reader.counterOf
        rw [hmw]
        by_cases hg : g = (⟨p, gap.writerId⟩ : GUID)
        · subst hg
          rw [alookup_aupdate_self, hlk]
          exact hc2
        · rw [alookup_aupdate_ne _ g _ hg]
    constructor
    · rw [hstep, hcnt]
    · rw [hem, hstep, hcnt, intRange_self]
      exact List.Perm.nil
  | preemptiveAckNack =>
    obtain ⟨_, hstl, hmap⟩ := send_preemptive_wm r
    have hstep : (r.stepEvent ReaderEvent.preemptiveAckNack) =
        (r.send_preemptive_acknacks).1 := rfl
    by_cases hs : r.likeStateless
    · have hem : r.emissionsFor g ReaderEvent.preemptiveAckNack = [] := by
        show (if r.likeStateless = true then []
          else match alookup g r.matchedWriters with
            | some wp => (preemptiveStep r.myGuid.entityId wp).2
            | none => []) = []
        rw [if_pos hs]
      constructor
      · rw [hstep, hstl hs]
      · rw [hem, hstep, hstl hs, intRange_self]
        exact List.Perm.nil
    · have hsF : r.likeStateless = false := by simp [hs]
      have hem : r.emissionsFor g ReaderEvent.preemptiveAckNack =
          (match alookup g r.matchedWriters with
            | some wp => (preemptiveStep r.myGuid.entityId wp).2
            | none => []) := by
        show (if r.likeStateless = true then []
          else match alookup g r.matchedWriters with
            | some wp => (preemptiveStep r.myGuid.entityId wp).2
            | none => []) = _
        rw [if_neg hs]
      have hcnt : (r.stepEvent ReaderEvent.preemptiveAckNack).counterOf g =
          (match alookup g r.matchedWriters with
            | some wp => ((preemptiveStep r.myGuid.entityId wp).1).sentAckNackCount
            | none => 0) := by
        rw [hstep]
        unfold Reader.counterOf
        rw [hmap hsF g]
        cases hlk : alookup g r.matchedWriters with
        | none => rfl
        | some wp => rfl
      cases hlk : alookup g r.matchedWriters with
      | none =>
        have hpre : r.counterOf g = 0 := by
          unfold Reader.counterOf
          rw [hlk]
        rw [hem, hcnt, hlk, hpre]
        constructor
        · exact le_refl _
        · rw [intRange_self]
          exact List.Perm.nil
      | some wp =>
        have hpre : r.counterOf g = wp.sentAckNackCount := by
          unfold Reader.counterOf
          rw [hlk]
        rw [hem, hcnt, hlk, hpre]
        dsimp only
        rw [preemptiveStep_counter, preemptiveStep_counts_eq]
        by_cases hn : wp.no_changes_received
        · simp only [hn, if_true]
          constructor
          · omega
          · rw [intRange_cons wp.sentAckNackCount (wp.sentAckNackCount + 1)
              (by omega), intRange_self]
        · simp only [hn, Bool.false_eq_true, if_false]
          constructor
          · exact le_refl _
          · rw [intRange_self]

/-- The acknack counter never decreases along a run of Reader events. -/
theorem runEvents_counter_mono (g : GUID) :
    ∀ (evs : List ReaderEvent) (r : Reader),
      r.counterOf g ≤ (r.runEvents evs).counterOf g := by
  intro evs
  induction evs with
  | nil => intro r; exact le_refl _
  | cons ev rest ih =>
    intro r
    calc r.counterOf g ≤ (r.stepEvent ev).counterOf g :=
          (stepEvent_counts r g ev).1
      _ ≤ ((r.stepEvent ev).runEvents rest).counterOf g := ih (r.stepEvent ev)

/-- C9 (amended): every emitted ACKNACK and NACKFRAG count is drawn from the
proxy's `next_ack_nack_sequence_number()`, which post-increments
`sent_ack_nack_count`; along any run of Reader events, the counts emitted
for one writer are — as a multiset — exactly the counter range the run
consumes, so they are pairwise distinct and strictly increasing in the
order they are drawn (the consumed range is a strictly increasing chain).
They are not strictly increasing in emission order: within one heartbeat
response the ACKNACK draws its count before the NACKFRAGs but its message
is sent after theirs (see the counterexample). -/
theorem claim_C9 (r : Reader) (g : GUID) (evs : List ReaderEvent)
    (wp : RtpsWriterProxy) :
    wp.next_ack_nack_sequence_number =
      (wp.sentAckNackCount,
        { wp with sentAckNackCount := wp.sentAckNackCount + 1 }) ∧
    ((r.traceEmissions g evs).map ReaderSubmessage.countOf).Perm
      (intRange (r.counterOf g) ((r.runEvents evs).counterOf g)) ∧
    List.Chain' (fun a b => a < b)
      (intRange (r.counterOf g) ((r.runEvents evs).counterOf g)) := by
  refine ⟨rfl, ?_, (intRange_pairwise _ _).chain'⟩
  induction evs generalizing r with
  | nil =>
    rw [show (r.runEvents []) = r from rfl, intRange_self]
    exact List.Perm.nil
  | cons ev rest ih =>
    rw [show r.traceEmissions g (ev :: rest) =
      r.emissionsFor g ev ++ (r.stepEvent ev).traceEmissions g rest from rfl]
    rw [List.map_append]
    rw [show (r.runEvents (ev :: rest)) =
      ((r.stepEvent ev).runEvents rest) from rfl]
    rw [← intRange_append (r.counterOf g) ((r.stepEvent ev).counterOf g)
      (((r.stepEvent ev).runEvents rest).counterOf g)
      (stepEvent_counts r g ev).1
      (runEvents_counter_mono g rest (r.stepEvent ev))]
    exact ((stepEvent_counts r g ev).2).append (ih (r.stepEvent ev))

/-- Counterexample to C9 as stated: on a reliable stateful reader with one
partially received fragmented sample, a single heartbeat response sends a
NACKFRAG carrying count 1 strictly before an ACKNACK carrying count 0, so
the counts on the wire are not strictly increasing across emissions — the
ACKNACK's count is drawn first, but the NACKFRAG message is sent first. -/
theorem claim_C9_cex :
    ((Reader.mk false (Reliability.Reliable 100) ⟨9, ⟨5, 6⟩⟩
          ⟨⟨none⟩, ⟨[]⟩, []⟩ [(⟨7, ⟨1, 2⟩⟩, ⟨[(1, ⟨2, [1]⟩)]⟩)]
          [(⟨7, ⟨1, 2⟩⟩,
            RtpsWriterProxy.new ⟨7, ⟨1, 2⟩⟩)]).handle_heartbeat_msg
        7 ⟨⟨5, 6⟩, ⟨1, 2⟩, 1, 1, 1⟩ false).2.1.map ReaderSubmessage.countOf =
      [1, 0] ∧
    ¬ List.Chain' (fun a b => a < b) [(1 : Int), 0] := by
  exact ⟨by decide, fun hch => absurd (List.chain'_cons.mp hch).1 (by omega)⟩

end RustDDS
